import Mathlib

/-!
Verification of the tarantool iobuf layer (input buffer `ibuf`, output
buffer `obuf`, buffer pair `iobuf`), shallowly embedded from
`src/exception.cc` (the iobuf.cc part) and `src/box/phia_index.h`
(the iobuf.h part).

Modelling conventions:
* Bytes are `Nat`; memory spans are `List Nat`.
* The slab allocator backing `ibuf` is an oracle `alloc : Nat → Option Nat`
  mapping a requested capacity to the actual capacity of the returned slab
  (`none` models allocation failure, i.e. `slab_get` returning NULL).
* The region (arena) allocator backing `obuf` segments never fails in the
  model; the only obuf failure mode modelled is the segment-count cap in
  `obuf_init_pos`, which is the failure mode the claims are about.
* `tnt_raise(OutOfMemory, ...)` is modelled by returning
  `(state-at-raise, some OBErr.oom)`: mutations performed before the raise
  persist, exactly as for the C++ exception unwinding a `struct` passed by
  pointer.
* C `assert`s are no-ops in release builds (NDEBUG); the executable
  semantics below therefore ignores them.  The assert conditions that
  claims talk about are modelled as separate propositions
  (`obuf_alloc_pos_cap_assert`).
* Each allocation (slab or region) carries a generation counter `gen`;
  `gen` is bumped exactly when the C code obtains fresh memory for the
  span, so "the bytes stayed at their previously returned addresses" is
  expressed as "the owning span's `gen` did not change".
-/

/-- Pointwise update of a function, modelling a store to an array slot. -/
def upd {α : Type} (f : Nat → α) (i : Nat) (v : α) : Nat → α :=
  fun j => if j = i then v else f j

theorem upd_same {α : Type} (f : Nat → α) (i : Nat) (v : α) : upd f i v i = v := by
  simp [upd]

theorem upd_other {α : Type} (f : Nat → α) (i : Nat) (v : α) (j : Nat) (h : j ≠ i) :
    upd f i v j = f j := by
  simp [upd, h]

/-- `memcpy(l + off, d, d.length)`: overwrite `d.length` bytes of `l`
starting at offset `off`. -/
def listWrite (l : List Nat) (off : Nat) (d : List Nat) : List Nat :=
  l.take off ++ d ++ l.drop (off + d.length)

theorem listWrite_length (l : List Nat) (off : Nat) (d : List Nat)
    (h : off + d.length ≤ l.length) : (listWrite l off d).length = l.length := by
  simp [listWrite]
  omega

theorem take_listWrite_of_le (l : List Nat) (off : Nat) (d : List Nat)
    (a : Nat) (ha : a ≤ off) (hoff : off ≤ l.length) :
    (listWrite l off d).take a = l.take a := by
  unfold listWrite
  rw [List.append_assoc, List.take_append_eq_append_take, List.take_take,
    List.length_take]
  have h1 : min a off = a := by omega
  have h2 : a - min off l.length = 0 := by omega
  rw [h1, h2]
  simp

theorem take_listWrite_full (l : List Nat) (off : Nat) (d : List Nat)
    (hoff : off ≤ l.length) :
    (listWrite l off d).take (off + d.length) = l.take off ++ d := by
  unfold listWrite
  rw [List.append_assoc, List.take_append_eq_append_take, List.length_take]
  have h1 : min off l.length = off := by omega
  rw [h1]
  have h2 : off + d.length - off = d.length := by omega
  rw [h2, List.take_append_eq_append_take]
  simp

/-- Fuel-bounded core of the capacity-doubling loop
`while (capacity < size) capacity *= 2;`. -/
def growCapacityAux : Nat → Nat → Nat → Nat
  | 0, c, _ => c
  | fuel + 1, c, n => if c = 0 ∨ n ≤ c then c else growCapacityAux fuel (2 * c) n

/-- `while (capacity < size) capacity *= 2;` — the doubling loop shared by
`ibuf_reserve` and `obuf_alloc_pos`.  `n` steps of fuel always suffice
(capacity at least doubles each step), and a zero seed is returned as-is
(the C loop would not terminate on it; all call sites proven about have a
positive seed). -/
def growCapacity (c n : Nat) : Nat :=
  growCapacityAux n c n

theorem growCapacityAux_ge (fuel c n : Nat) (hc : 0 < c) (h : n ≤ 2 ^ fuel * c) :
    n ≤ growCapacityAux fuel c n := by
  induction fuel generalizing c with
  | zero => simpa using h
  | succ m ih =>
    unfold growCapacityAux
    split
    · next hguard =>
      rcases hguard with h0 | hle
      · omega
      · exact hle
    · next hguard =>
      apply ih (2 * c) (by omega)
      calc n ≤ 2 ^ (m + 1) * c := h
        _ = 2 ^ m * (2 * c) := by ring

theorem growCapacity_ge (c n : Nat) (hc : 0 < c) : n ≤ growCapacity c n := by
  apply growCapacityAux_ge n c n hc
  have h1 : n < 2 ^ n := Nat.lt_two_pow n
  calc n ≤ 2 ^ n := le_of_lt h1
    _ = 2 ^ n * 1 := by ring
    _ ≤ 2 ^ n * c := Nat.mul_le_mul_left _ hc

theorem growCapacityAux_ge_self (fuel c n : Nat) : c ≤ growCapacityAux fuel c n := by
  induction fuel generalizing c with
  | zero => simp [growCapacityAux]
  | succ m ih =>
    unfold growCapacityAux
    split
    · exact Nat.le_refl c
    · exact Nat.le_trans (by omega) (ih (2 * c))

theorem growCapacity_ge_self (c n : Nat) : c ≤ growCapacity c n :=
  growCapacityAux_ge_self n c n

/-- The single error kind of this layer: an out-of-memory condition
(`tnt_raise(OutOfMemory, ...)`).  `stuck` never arises on valid buffers;
it marks executions that in C would read past the iovec array (undefined
behavior), and exists only to make the loop of `obuf_dup` total. -/
inductive OBErr : Type
  | oom : OBErr
  | stuck : OBErr
deriving DecidableEq, Repr

/-! ## Input buffer (`struct ibuf`) -/

/-- `struct ibuf`.  `buf` is the owned span (length `capacity`); `pos` and
`end_off` are the cursors as offsets from the start of `buf` (the C code
stores raw pointers; offsets are the reallocation-stable view that
`ibuf_pos` computes).  `gen` increments whenever a fresh slab replaces
`buf`. -/
structure Ibuf : Type where
  capacity : Nat
  buf : List Nat
  pos : Nat
  end_off : Nat
  gen : Nat
deriving DecidableEq, Repr

/-- `ibuf_size`: how much data is read and not parsed yet. -/
def ibuf_size (ibuf : Ibuf) : Nat := ibuf.end_off - ibuf.pos

/-- `ibuf_unused`: how much data fits beyond `end`. -/
def ibuf_unused (ibuf : Ibuf) : Nat := ibuf.capacity - ibuf.end_off

/-- `ibuf_capacity`. -/
def ibuf_capacity (ibuf : Ibuf) : Nat := ibuf.capacity

/-- `ibuf_pos`: integer position, stable across realloc. -/
def ibuf_pos (ibuf : Ibuf) : Nat := ibuf.pos

/-- `ibuf_create`: empty input buffer, no allocation yet. -/
def ibuf_create : Ibuf :=
  { capacity := 0, buf := [], pos := 0, end_off := 0, gen := 0 }

/-- Well-formedness of an input buffer: cursor ordering
`buf <= pos <= end <= buf + capacity` and span length. -/
structure IbufValid (ibuf : Ibuf) : Prop where
  pos_le : ibuf.pos ≤ ibuf.end_off
  end_le : ibuf.end_off ≤ ibuf.capacity
  buf_len : ibuf.buf.length = ibuf.capacity

/-- `ibuf_reserve(ibuf, size)` from exception.cc:246-280.
`alloc` is the slab-cache oracle (requested capacity ↦ actual slab
capacity, `none` = failure), `readahead` is the global `iobuf_readahead`. -/
def ibuf_reserve (alloc : Nat → Option Nat) (readahead : Nat) (ibuf : Ibuf)
    (size : Nat) : Ibuf × Option OBErr :=
  if size ≤ ibuf_unused ibuf then (ibuf, none)
  else
    let current_size := ibuf_size ibuf
    if size + current_size ≤ ibuf.capacity then
      ({ ibuf with
          buf := (ibuf.buf.drop ibuf.pos).take current_size ++
                 ibuf.buf.drop current_size,
          pos := 0,
          end_off := current_size }, none)
    else
      let new_capacity := growCapacity (Nat.max (ibuf.capacity * 2) readahead)
        (current_size + size)
      match alloc new_capacity with
      | none => (ibuf, some OBErr.oom)
      | some slabcap =>
          ({ ibuf with
              capacity := slabcap,
              buf := (ibuf.buf.drop ibuf.pos).take current_size ++
                     List.replicate (slabcap - current_size) 0,
              gen := ibuf.gen + 1,
              pos := 0,
              end_off := current_size }, none)

/-! ## Output buffer (`struct obuf`) -/

/-- `enum { IOBUF_IOV_MAX = 32 }`: the hard cap on the iovec array. -/
def IOBUF_IOV_MAX : Nat := 32

/-- `struct obuf`.  `capacity i`, `iov_len i` and `store i` model
`capacity[i]`, `iov[i].iov_len` and the allocation behind
`iov[i].iov_base` (length `capacity i`; the empty list models a NULL
base).  Indices at or beyond `IOBUF_IOV_MAX` do not exist in the C array;
well-formed states keep them zeroed.  `gen i` counts how many times slot
`i` has received a fresh `region_alloc` span. -/
structure Obuf : Type where
  pos : Nat
  size : Nat
  alloc_factor : Nat
  capacity : Nat → Nat
  iov_len : Nat → Nat
  store : Nat → List Nat
  gen : Nat → Nat

/-- `obuf_size`. -/
def obuf_size (obuf : Obuf) : Nat := obuf.size

/-- `obuf_iovcnt`: number of iovecs in use. -/
def obuf_iovcnt (buf : Obuf) : Nat :=
  if buf.iov_len buf.pos > 0 then buf.pos + 1 else buf.pos

/-- `struct obuf_svp`: a savepoint. -/
structure ObufSvp : Type where
  pos : Nat
  iov_len : Nat
  size : Nat
deriving DecidableEq, Repr

/-- `obuf_init_pos` (exception.cc:290-299): initialize the next iovec
slot; raises `OutOfMemory` if the slot index reaches `IOBUF_IOV_MAX`.
The raise happens before any mutation. -/
def obuf_init_pos (buf : Obuf) (pos : Nat) : Obuf × Option OBErr :=
  if IOBUF_IOV_MAX ≤ pos then (buf, some OBErr.oom)
  else
    ({ buf with
        iov_len := upd buf.iov_len pos 0,
        store := upd buf.store pos [],
        capacity := upd buf.capacity pos 0 }, none)

/-- The `assert(buf->capacity[pos] == 0)` at the top of `obuf_alloc_pos`
(exception.cc:305).  Asserts are no-ops in release builds; this predicate
records whether the assert would have held. -/
def obuf_alloc_pos_cap_assert (buf : Obuf) (pos : Nat) : Prop :=
  buf.capacity pos = 0

instance (buf : Obuf) (pos : Nat) : Decidable (obuf_alloc_pos_cap_assert buf pos) := by
  unfold obuf_alloc_pos_cap_assert
  infer_instance

/-- `obuf_alloc_pos` (exception.cc:301-314): allocate memory for a single
iovec slot.  The seed capacity is `capacity[pos-1] * 2` (or
`alloc_factor` for slot 0), doubled until it holds `size`.  Note the C
code reads the span base into `iov[pos]` but stores the capacity into
`capacity[buf->pos]`; every caller passes `pos == buf->pos`, and the
model keeps both writes as the source has them. -/
def obuf_alloc_pos (buf : Obuf) (pos : Nat) (size : Nat) : Obuf :=
  let cap0 := if pos > 0 then buf.capacity (pos - 1) * 2 else buf.alloc_factor
  let cap := growCapacity cap0 size
  { buf with
      store := upd buf.store pos (List.replicate cap 0),
      gen := upd buf.gen pos (buf.gen pos + 1),
      capacity := upd buf.capacity buf.pos cap }

/-- `obuf_create` (exception.cc:319-327). -/
def obuf_create (alloc_factor : Nat) : Obuf :=
  (obuf_init_pos
    { pos := 0, size := 0, alloc_factor := alloc_factor,
      capacity := fun _ => 0, iov_len := fun _ => 0,
      store := fun _ => [], gen := fun _ => 0 } 0).1

/-- Write `d` at the tail of the current segment and commit it: the
common `memcpy(iov_base + iov_len, ..); iov_len += ..; size += ..`
step of `obuf_dup` and `obuf_alloc`. -/
def obuf_write_cur (buf : Obuf) (d : List Nat) : Obuf :=
  { buf with
      store := upd buf.store buf.pos
        (listWrite (buf.store buf.pos) (buf.iov_len buf.pos) d),
      iov_len := upd buf.iov_len buf.pos (buf.iov_len buf.pos + d.length),
      size := buf.size + d.length }

/-- The loop of `obuf_dup` (exception.cc:346-406), fuel-bounded.  Each
continuing iteration advances `buf->pos`, so `IOBUF_IOV_MAX + 2` fuel
suffices on any well-formed buffer; exhausted fuel returns `OBErr.stuck`
(in C those executions would index past the iovec array). -/
def obuf_dup_loop : Nat → Obuf → List Nat → Obuf × Option OBErr
  | 0, buf, _ => (buf, some OBErr.stuck)
  | fuel + 1, buf, data =>
    let len := buf.iov_len buf.pos
    let capacity := buf.capacity buf.pos
    if len + data.length > capacity then
      if len < capacity then
        -- partially filled segment: copy as much as fits, then move on
        let fill := capacity - len
        let buf1 := obuf_write_cur buf (data.take fill)
        obuf_dup_loop fuel { buf1 with pos := buf1.pos + 1 } (data.drop fill)
      else if capacity = 0 then
        -- unallocated segment: keep a sentinel after it, size it for the
        -- remainder, and break out of the loop
        match obuf_init_pos buf (buf.pos + 1) with
        | (buf1, some e) => (buf1, some e)
        | (buf1, none) => (obuf_write_cur (obuf_alloc_pos buf1 buf.pos data.length) data, none)
      else
        -- full segment: move to the next one
        obuf_dup_loop fuel { buf with pos := buf.pos + 1 } data
    else
      (obuf_write_cur buf data, none)

/-- `obuf_dup` (exception.cc:346-406): copy-append `data`, splitting
across as many segments as needed. -/
def obuf_dup (buf : Obuf) (data : List Nat) : Obuf × Option OBErr :=
  obuf_dup_loop (IOBUF_IOV_MAX + 2) buf data

/-- The part of `obuf_reserve_slow` after the move-to-next-buffer step:
make sure the current (empty) slot can store `size` bytes. -/
def obuf_reserve_slow_tail (buf1 : Obuf) (size : Nat) : Obuf × Option OBErr :=
  if buf1.capacity buf1.pos = 0 then
    match obuf_init_pos buf1 (buf1.pos + 1) with
    | (buf2, some e) => (buf2, some e)
    | (buf2, none) => (obuf_alloc_pos buf2 buf1.pos size, none)
  else if size > buf1.capacity buf1.pos then
    -- "Simply realloc." — note obuf_alloc_pos asserts capacity[pos] == 0,
    -- which does not hold on this branch
    (obuf_alloc_pos buf1 buf1.pos size, none)
  else
    (buf1, none)

/-- `obuf_reserve_slow` (exception.cc:408-431): if the current segment
has used bytes, move to the next slot, then ensure it can store `size`.
The returned pointer of the C function is
`iov[buf->pos].iov_base + iov[buf->pos].iov_len` of the returned state. -/
def obuf_reserve_slow (buf : Obuf) (size : Nat) : Obuf × Option OBErr :=
  obuf_reserve_slow_tail
    (if buf.iov_len buf.pos > 0 then { buf with pos := buf.pos + 1 } else buf) size

/-- `obuf_reserve` (iobuf.h): fast path peeks at the current segment,
falling back to `obuf_reserve_slow`. -/
def obuf_reserve (buf : Obuf) (size : Nat) : Obuf × Option OBErr :=
  if buf.iov_len buf.pos + size > buf.capacity buf.pos then
    obuf_reserve_slow buf size
  else
    (buf, none)

/-- `obuf_alloc` (iobuf.h): advance the write position by `size` bytes
(the bytes themselves are written by the caller through the pointer
returned by `obuf_reserve`). -/
def obuf_alloc (buf : Obuf) (size : Nat) : Obuf × Option OBErr :=
  match (if buf.iov_len buf.pos + size > buf.capacity buf.pos then
          obuf_reserve_slow buf size
         else (buf, none)) with
  | (buf1, some e) => (buf1, some e)
  | (buf1, none) =>
      ({ buf1 with
          iov_len := upd buf1.iov_len buf1.pos (buf1.iov_len buf1.pos + size),
          size := buf1.size + size }, none)

/-- `obuf_create_svp` (iobuf.h). -/
def obuf_create_svp (buf : Obuf) : ObufSvp :=
  { pos := buf.pos, iov_len := buf.iov_len buf.pos, size := buf.size }

/-- `obuf_book` (exception.cc:433-446): reserve, snapshot, alloc.  On a
raise inside the reserve the savepoint is never produced; the model
returns a dummy zero savepoint in that case. -/
def obuf_book (buf : Obuf) (size : Nat) : (Obuf × Option OBErr) × ObufSvp :=
  match obuf_reserve buf size with
  | (buf1, some e) => ((buf1, some e), { pos := 0, iov_len := 0, size := 0 })
  | (buf1, none) =>
      let svp := obuf_create_svp buf1
      (obuf_alloc buf1 size, svp)

/-- Zero a half-open index range of a `Nat`-valued slot function:
the rollback/reset loops `for (i = a; i < b; i++) iov[i].iov_len = 0`. -/
def zeroRange (f : Nat → Nat) (a b : Nat) : Nat → Nat :=
  fun j => if a ≤ j ∧ j < b then 0 else f j

/-- `obuf_rollback_to_svp` (exception.cc:449-459). -/
def obuf_rollback_to_svp (buf : Obuf) (svp : ObufSvp) : Obuf :=
  let iovcnt := obuf_iovcnt buf
  { buf with
      pos := svp.pos,
      iov_len := zeroRange (upd buf.iov_len svp.pos svp.iov_len) (svp.pos + 1) iovcnt,
      size := svp.size }

/-- The append operations a response encoder performs on an output
buffer: `obuf_dup`, or `obuf_reserve` + caller write + `obuf_alloc`. -/
inductive App : Type
  | viaDup (data : List Nat)
  | viaAlloc (data : List Nat)
deriving DecidableEq, Repr

/-- `obuf_reserve(n)`, then the caller writing exactly `n` bytes through
the returned pointer, then `obuf_alloc(n)` — the contract sequence of
claim C3 and the `viaAlloc` append. -/
def reserve_write_alloc (buf : Obuf) (data : List Nat) : Obuf × Option OBErr :=
  match obuf_reserve buf data.length with
  | (buf1, some e) => (buf1, some e)
  | (buf1, none) =>
      -- the caller's memcpy through the reserved pointer
      let buf2 := { buf1 with
        store := upd buf1.store buf1.pos
          (listWrite (buf1.store buf1.pos) (buf1.iov_len buf1.pos) data) }
      obuf_alloc buf2 data.length

/-- Run one append operation. -/
def applyApp (buf : Obuf) (op : App) : Obuf × Option OBErr :=
  match op with
  | App.viaDup d => obuf_dup buf d
  | App.viaAlloc d => reserve_write_alloc buf d

/-- Run a list of append operations, stopping at the first raise (the
raise unwinds the in-flight request; the buffer keeps the state it had at
the raise). -/
def applyApps (buf : Obuf) (ops : List App) : Obuf × Option OBErr :=
  match ops with
  | [] => (buf, none)
  | op :: rest =>
      match applyApp buf op with
      | (buf1, some e) => (buf1, some e)
      | (buf1, none) => applyApps buf1 rest

/-- The byte payload a list of appends carries. -/
def appData : App → List Nat
  | App.viaDup d => d
  | App.viaAlloc d => d

def appsData (ops : List App) : List Nat :=
  (ops.map appData).flatten

/-- The used bytes of segment `i`: the first `iov_len i` bytes of its
span — what `writev` would transmit for that iovec. -/
def usedSeg (buf : Obuf) (i : Nat) : List Nat :=
  (buf.store i).take (buf.iov_len i)

/-- The byte stream held by the buffer: concatenation of the used bytes
of all segments in segment order. -/
def flattenBuf (buf : Obuf) : List Nat :=
  ((List.range IOBUF_IOV_MAX).map (usedSeg buf)).flatten

/-- Well-formedness of an output buffer.  All states reachable from
`obuf_create` through the operations above satisfy it (proved below);
claims quantifying over "every output buffer state" quantify over it. -/
structure ObufValid (buf : Obuf) : Prop where
  af_pos : 0 < buf.alloc_factor
  pos_lt : buf.pos < IOBUF_IOV_MAX
  len_le : ∀ i, buf.iov_len i ≤ buf.capacity i
  store_len : ∀ i, (buf.store i).length = buf.capacity i
  beyond : ∀ i, buf.pos < i → buf.iov_len i = 0
  high : ∀ i, IOBUF_IOV_MAX ≤ i → buf.capacity i = 0
  contig : ∀ i, i < buf.pos → 0 < buf.capacity i
  slot31 : buf.capacity (IOBUF_IOV_MAX - 1) = 0

/-! ## Frame relation for append operations

An append operation only writes at or after the current write position:
segments strictly below `pos` are untouched (contents, lengths,
capacities and allocation identities), and the already-used prefix of the
current segment is untouched and never relocated while it holds data. -/

structure AppendExtends (s r : Obuf) : Prop where
  pos_le : s.pos ≤ r.pos
  low_store : ∀ i, i < s.pos → r.store i = s.store i
  low_len : ∀ i, i < s.pos → r.iov_len i = s.iov_len i
  low_cap : ∀ i, i < s.pos → r.capacity i = s.capacity i
  low_gen : ∀ i, i < s.pos → r.gen i = s.gen i
  cur_mono : s.iov_len s.pos ≤ r.iov_len s.pos
  cur_keep : (r.store s.pos).take (s.iov_len s.pos) =
    (s.store s.pos).take (s.iov_len s.pos)
  cur_gen : 0 < s.iov_len s.pos →
    r.gen s.pos = s.gen s.pos ∧ r.capacity s.pos = s.capacity s.pos

theorem AppendExtends.rfl (s : Obuf) : AppendExtends s s :=
  ⟨Nat.le_refl _, fun _ _ => Eq.refl _, fun _ _ => Eq.refl _, fun _ _ => Eq.refl _,
   fun _ _ => Eq.refl _, Nat.le_refl _, Eq.refl _, fun _ => ⟨Eq.refl _, Eq.refl _⟩⟩

theorem AppendExtends.trans {s t r : Obuf} (h1 : AppendExtends s t)
    (h2 : AppendExtends t r) : AppendExtends s r := by
  have hlow : ∀ i, i < s.pos → i < t.pos := fun i hi => Nat.lt_of_lt_of_le hi h1.pos_le
  refine ⟨Nat.le_trans h1.pos_le h2.pos_le, ?_, ?_, ?_, ?_, ?_, ?_, ?_⟩
  · intro i hi; rw [h2.low_store i (hlow i hi), h1.low_store i hi]
  · intro i hi; rw [h2.low_len i (hlow i hi), h1.low_len i hi]
  · intro i hi; rw [h2.low_cap i (hlow i hi), h1.low_cap i hi]
  · intro i hi; rw [h2.low_gen i (hlow i hi), h1.low_gen i hi]
  · rcases Nat.lt_or_ge s.pos t.pos with hlt | hge
    · rw [h2.low_len s.pos hlt]; exact h1.cur_mono
    · have hpe : s.pos = t.pos := Nat.le_antisymm h1.pos_le hge
      refine Nat.le_trans h1.cur_mono ?_
      rw [hpe]; exact h2.cur_mono
  · rcases Nat.lt_or_ge s.pos t.pos with hlt | hge
    · rw [h2.low_store s.pos hlt, h1.cur_keep]
    · have hpe : s.pos = t.pos := Nat.le_antisymm h1.pos_le hge
      have hmin : min (s.iov_len s.pos) (t.iov_len t.pos) = s.iov_len s.pos := by
        have := h1.cur_mono
        rw [hpe] at this ⊢
        omega
      calc (r.store s.pos).take (s.iov_len s.pos)
          = ((r.store s.pos).take (t.iov_len t.pos)).take (s.iov_len s.pos) := by
            rw [List.take_take, hmin]
        _ = ((t.store s.pos).take (t.iov_len t.pos)).take (s.iov_len s.pos) := by
            rw [hpe] at hmin ⊢
            rw [h2.cur_keep]
        _ = (t.store s.pos).take (s.iov_len s.pos) := by rw [List.take_take, hmin]
        _ = (s.store s.pos).take (s.iov_len s.pos) := h1.cur_keep
  · intro hpos
    rcases Nat.lt_or_ge s.pos t.pos with hlt | hge
    · exact ⟨by rw [h2.low_gen s.pos hlt, (h1.cur_gen hpos).1],
             by rw [h2.low_cap s.pos hlt, (h1.cur_gen hpos).2]⟩
    · have hpe : s.pos = t.pos := Nat.le_antisymm h1.pos_le hge
      have hpos' : 0 < t.iov_len t.pos := by
        have h1m := h1.cur_mono
        have e2 : t.iov_len t.pos = t.iov_len s.pos := by rw [hpe]
        omega
      have h2g := h2.cur_gen hpos'
      rw [← hpe] at h2g
      exact ⟨by rw [h2g.1, (h1.cur_gen hpos).1], by rw [h2g.2, (h1.cur_gen hpos).2]⟩

/-! ## Flatten lemmas -/

theorem flattenBuf_congr (a b : Obuf)
    (h : ∀ i, i < IOBUF_IOV_MAX → usedSeg a i = usedSeg b i) :
    flattenBuf a = flattenBuf b := by
  unfold flattenBuf
  congr 1
  apply List.map_congr_left
  intro i hi
  exact h i (List.mem_range.mp hi)

theorem flatten_map_range_append (f g : Nat → List Nat) (d : List Nat) (n p : Nat)
    (hp : p < n)
    (hlow : ∀ i, i < p → g i = f i)
    (hcur : g p = f p ++ d)
    (hhigh : ∀ i, p < i → i < n → f i = [] ∧ g i = []) :
    ((List.range n).map g).flatten = ((List.range n).map f).flatten ++ d := by
  induction n with
  | zero => omega
  | succ m ih =>
    rw [List.range_succ, List.map_append, List.map_append,
      List.flatten_append, List.flatten_append]
    rcases Nat.lt_or_ge p m with hlt | hge
    · have hm := hhigh m hlt (Nat.lt_succ_self m)
      rw [ih hlt (fun i hi hin => hhigh i hi (Nat.lt_succ_of_lt hin))]
      simp [hm.1, hm.2]
    · have hpe : p = m := by omega
      subst hpe
      have hmap : (List.range p).map g = (List.range p).map f := by
        apply List.map_congr_left
        intro i hi
        exact hlow i (List.mem_range.mp hi)
      simp only [List.map_cons, List.map_nil, List.flatten_cons, List.flatten_nil,
        List.append_nil]
      rw [hmap, hcur, List.append_assoc]

/-- `obuf_write_cur` appends `d` to the buffer's byte stream. -/
theorem flattenBuf_write_cur (buf : Obuf) (d : List Nat)
    (hb : ∀ i, buf.pos < i → buf.iov_len i = 0)
    (hlen : buf.iov_len buf.pos + d.length ≤ buf.capacity buf.pos)
    (hsl : (buf.store buf.pos).length = buf.capacity buf.pos)
    (hp : buf.pos < IOBUF_IOV_MAX) :
    flattenBuf (obuf_write_cur buf d) = flattenBuf buf ++ d := by
  unfold flattenBuf
  apply flatten_map_range_append (usedSeg buf) (usedSeg (obuf_write_cur buf d)) d
    IOBUF_IOV_MAX buf.pos hp
  · intro i hi
    unfold usedSeg obuf_write_cur
    simp only
    rw [upd_other _ _ _ i (by omega), upd_other _ _ _ i (by omega)]
  · unfold usedSeg obuf_write_cur
    simp only
    rw [upd_same, upd_same]
    exact take_listWrite_full _ _ _ (by omega)
  · intro i hi _
    have hz : buf.iov_len i = 0 := hb i hi
    constructor
    · unfold usedSeg; rw [hz]; simp
    · unfold usedSeg obuf_write_cur
      simp only
      rw [upd_other _ _ _ i (by omega), hz]
      simp

theorem valid_write_cur (buf : Obuf) (d : List Nat) (hv : ObufValid buf)
    (hlen : buf.iov_len buf.pos + d.length ≤ buf.capacity buf.pos) :
    ObufValid (obuf_write_cur buf d) := by
  have hsl := hv.store_len buf.pos
  refine ⟨hv.af_pos, hv.pos_lt, ?_, ?_, ?_, hv.high, hv.contig, hv.slot31⟩
  · intro i
    unfold obuf_write_cur
    simp only
    by_cases hi : i = buf.pos
    · subst hi; rw [upd_same]; omega
    · rw [upd_other _ _ _ i hi]; exact hv.len_le i
  · intro i
    unfold obuf_write_cur
    simp only
    by_cases hi : i = buf.pos
    · subst hi
      rw [upd_same]
      rw [listWrite_length _ _ _ (by omega)]
      exact hv.store_len buf.pos
    · rw [upd_other _ _ _ i hi]; exact hv.store_len i
  · intro i hi
    have hip : buf.pos < i := hi
    unfold obuf_write_cur
    simp only
    rw [upd_other _ _ _ i (by omega)]
    exact hv.beyond i hip

theorem ae_write_cur (buf : Obuf) (d : List Nat)
    (hoff : buf.iov_len buf.pos ≤ (buf.store buf.pos).length) :
    AppendExtends buf (obuf_write_cur buf d) := by
  refine ⟨Nat.le_refl _, ?_, ?_, fun _ _ => Eq.refl _, fun _ _ => Eq.refl _, ?_, ?_, ?_⟩
  · intro i hi
    unfold obuf_write_cur
    simp only
    rw [upd_other _ _ _ i (by omega)]
  · intro i hi
    unfold obuf_write_cur
    simp only
    rw [upd_other _ _ _ i (by omega)]
  · unfold obuf_write_cur
    simp only
    rw [upd_same]
    omega
  · unfold obuf_write_cur
    simp only
    rw [upd_same]
    exact take_listWrite_of_le _ _ _ _ (Nat.le_refl _) hoff
  · intro _
    exact ⟨Eq.refl _, Eq.refl _⟩

/-! ## Primitive-step specifications -/

theorem valid_advance (buf : Obuf) (hv : ObufValid buf)
    (hc : 0 < buf.capacity buf.pos) : ObufValid { buf with pos := buf.pos + 1 } := by
  have hne31 : buf.pos ≠ IOBUF_IOV_MAX - 1 := by
    intro he
    rw [he] at hc
    rw [hv.slot31] at hc
    omega
  have hlt := hv.pos_lt
  refine ⟨hv.af_pos, ?_, hv.len_le, hv.store_len, ?_, hv.high, ?_, hv.slot31⟩
  · show buf.pos + 1 < IOBUF_IOV_MAX
    unfold IOBUF_IOV_MAX at hlt hne31 ⊢
    omega
  · intro i hi
    have hi2 : buf.pos + 1 < i := hi
    exact hv.beyond i (by omega)
  · intro i hi
    have hi2 : i < buf.pos + 1 := hi
    rcases Nat.lt_or_ge i buf.pos with h | h
    · exact hv.contig i h
    · have : i = buf.pos := by omega
      rw [this]
      exact hc

theorem ae_advance (buf : Obuf) : AppendExtends buf { buf with pos := buf.pos + 1 } :=
  ⟨Nat.le_succ _, fun _ _ => Eq.refl _, fun _ _ => Eq.refl _, fun _ _ => Eq.refl _,
   fun _ _ => Eq.refl _, Nat.le_refl _, Eq.refl _, fun _ => ⟨Eq.refl _, Eq.refl _⟩⟩

theorem obuf_init_next_eq (buf : Obuf) (hlt : buf.pos + 1 < IOBUF_IOV_MAX) :
    obuf_init_pos buf (buf.pos + 1) =
      ({ buf with
          iov_len := upd buf.iov_len (buf.pos + 1) 0,
          store := upd buf.store (buf.pos + 1) [],
          capacity := upd buf.capacity (buf.pos + 1) 0 }, none) := by
  unfold obuf_init_pos
  rw [if_neg (by omega)]

/-- Raise on overflow of the iovec array: initializing the sentinel slot
at index `IOBUF_IOV_MAX` fails without mutating the buffer. -/
theorem obuf_init_pos_overflow (buf : Obuf) (k : Nat) (hk : IOBUF_IOV_MAX ≤ k) :
    obuf_init_pos buf k = (buf, some OBErr.oom) := by
  unfold obuf_init_pos
  rw [if_pos hk]

theorem valid_init_next (buf : Obuf) (hv : ObufValid buf)
    (hlt : buf.pos + 1 < IOBUF_IOV_MAX) :
    ObufValid (obuf_init_pos buf (buf.pos + 1)).1 := by
  rw [obuf_init_next_eq buf hlt]
  refine ⟨hv.af_pos, hv.pos_lt, ?_, ?_, ?_, ?_, ?_, ?_⟩
  · intro i
    show upd buf.iov_len (buf.pos + 1) 0 i ≤ upd buf.capacity (buf.pos + 1) 0 i
    by_cases hi : i = buf.pos + 1
    · subst hi; rw [upd_same, upd_same]
    · rw [upd_other _ _ _ i hi, upd_other _ _ _ i hi]; exact hv.len_le i
  · intro i
    show (upd buf.store (buf.pos + 1) [] i).length = upd buf.capacity (buf.pos + 1) 0 i
    by_cases hi : i = buf.pos + 1
    · subst hi; rw [upd_same, upd_same]; rfl
    · rw [upd_other _ _ _ i hi, upd_other _ _ _ i hi]; exact hv.store_len i
  · intro i hi
    have hi2 : buf.pos < i := hi
    show upd buf.iov_len (buf.pos + 1) 0 i = 0
    by_cases hib : i = buf.pos + 1
    · subst hib; rw [upd_same]
    · rw [upd_other _ _ _ i hib]; exact hv.beyond i hi2
  · intro i hi
    show upd buf.capacity (buf.pos + 1) 0 i = 0
    by_cases hib : i = buf.pos + 1
    · subst hib; rw [upd_same]
    · rw [upd_other _ _ _ i hib]; exact hv.high i hi
  · intro i hi
    have hi2 : i < buf.pos := hi
    show 0 < upd buf.capacity (buf.pos + 1) 0 i
    rw [upd_other _ _ _ i (by omega)]
    exact hv.contig i hi2
  · show upd buf.capacity (buf.pos + 1) 0 (IOBUF_IOV_MAX - 1) = 0
    by_cases hib : IOBUF_IOV_MAX - 1 = buf.pos + 1
    · rw [hib, upd_same]
    · rw [upd_other _ _ _ _ hib]; exact hv.slot31

theorem ae_init_next (buf : Obuf) (hlt : buf.pos + 1 < IOBUF_IOV_MAX) :
    AppendExtends buf (obuf_init_pos buf (buf.pos + 1)).1 := by
  rw [obuf_init_next_eq buf hlt]
  refine ⟨Nat.le_refl _, ?_, ?_, ?_, fun _ _ => Eq.refl _, ?_, ?_, ?_⟩
  · intro i hi
    show upd buf.store (buf.pos + 1) [] i = buf.store i
    exact upd_other _ _ _ i (by omega)
  · intro i hi
    show upd buf.iov_len (buf.pos + 1) 0 i = buf.iov_len i
    exact upd_other _ _ _ i (by omega)
  · intro i hi
    show upd buf.capacity (buf.pos + 1) 0 i = buf.capacity i
    exact upd_other _ _ _ i (by omega)
  · show buf.iov_len buf.pos ≤ upd buf.iov_len (buf.pos + 1) 0 buf.pos
    rw [upd_other _ _ _ _ (by omega)]
  · show (upd buf.store (buf.pos + 1) [] buf.pos).take (buf.iov_len buf.pos) =
      (buf.store buf.pos).take (buf.iov_len buf.pos)
    rw [upd_other _ _ _ _ (by omega)]
  · intro _
    constructor
    · rfl
    · show upd buf.capacity (buf.pos + 1) 0 buf.pos = buf.capacity buf.pos
      exact upd_other _ _ _ _ (by omega)

theorem flatten_init_next (buf : Obuf) (hv : ObufValid buf)
    (hlt : buf.pos + 1 < IOBUF_IOV_MAX) :
    flattenBuf (obuf_init_pos buf (buf.pos + 1)).1 = flattenBuf buf := by
  rw [obuf_init_next_eq buf hlt]
  apply flattenBuf_congr
  intro i _
  unfold usedSeg
  by_cases hi : i = buf.pos + 1
  · subst hi
    show (upd buf.store (buf.pos + 1) [] (buf.pos + 1)).take
        (upd buf.iov_len (buf.pos + 1) 0 (buf.pos + 1)) = _
    rw [upd_same, upd_same, hv.beyond (buf.pos + 1) (by omega)]
    rfl
  · show (upd buf.store (buf.pos + 1) [] i).take (upd buf.iov_len (buf.pos + 1) 0 i) = _
    rw [upd_other _ _ _ i hi, upd_other _ _ _ i hi]

theorem obuf_alloc_pos_spec (buf : Obuf) (n p : Nat) (hp : p = buf.pos)
    (hv : ObufValid buf)
    (hlen0 : buf.iov_len buf.pos = 0) (hne31 : buf.pos ≠ IOBUF_IOV_MAX - 1) :
    ObufValid (obuf_alloc_pos buf p n) ∧
    AppendExtends buf (obuf_alloc_pos buf p n) ∧
    flattenBuf (obuf_alloc_pos buf p n) = flattenBuf buf ∧
    n ≤ (obuf_alloc_pos buf p n).capacity buf.pos ∧
    (obuf_alloc_pos buf p n).iov_len = buf.iov_len ∧
    (obuf_alloc_pos buf p n).pos = buf.pos ∧
    (obuf_alloc_pos buf p n).size = buf.size ∧
    (obuf_alloc_pos buf p n).alloc_factor = buf.alloc_factor := by
  subst hp
  have hseed : 0 < (if buf.pos > 0 then buf.capacity (buf.pos - 1) * 2
      else buf.alloc_factor) := by
    split
    · next h =>
      have hc := hv.contig (buf.pos - 1) (by omega)
      omega
    · exact hv.af_pos
  have hge : n ≤ growCapacity (if buf.pos > 0 then buf.capacity (buf.pos - 1) * 2
      else buf.alloc_factor) n := growCapacity_ge _ _ hseed
  refine ⟨?_, ?_, ?_, ?_, Eq.refl _, Eq.refl _, Eq.refl _, Eq.refl _⟩
  · refine ⟨hv.af_pos, hv.pos_lt, ?_, ?_, ?_, ?_, ?_, ?_⟩
    · intro i
      show buf.iov_len i ≤ upd buf.capacity buf.pos _ i
      by_cases hi : i = buf.pos
      · subst hi; rw [upd_same, hlen0]; omega
      · rw [upd_other _ _ _ i hi]; exact hv.len_le i
    · intro i
      show (upd buf.store buf.pos _ i).length = upd buf.capacity buf.pos _ i
      by_cases hi : i = buf.pos
      · subst hi; rw [upd_same, upd_same]; exact List.length_replicate _ _
      · rw [upd_other _ _ _ i hi, upd_other _ _ _ i hi]; exact hv.store_len i
    · intro i hi
      have hi2 : buf.pos < i := hi
      exact hv.beyond i hi2
    · intro i hi
      show upd buf.capacity buf.pos _ i = 0
      rw [upd_other _ _ _ i (by have := hv.pos_lt; omega)]
      exact hv.high i hi
    · intro i hi
      have hi2 : i < buf.pos := hi
      show 0 < upd buf.capacity buf.pos _ i
      rw [upd_other _ _ _ i (by omega)]
      exact hv.contig i hi2
    · show upd buf.capacity buf.pos _ (IOBUF_IOV_MAX - 1) = 0
      rw [upd_other _ _ _ _ (by omega)]
      exact hv.slot31
  · refine ⟨Nat.le_refl _, ?_, fun _ _ => Eq.refl _, ?_, ?_, Nat.le_refl _, ?_, ?_⟩
    · intro i hi
      show upd buf.store buf.pos _ i = buf.store i
      exact upd_other _ _ _ i (by omega)
    · intro i hi
      show upd buf.capacity buf.pos _ i = buf.capacity i
      exact upd_other _ _ _ i (by omega)
    · intro i hi
      show upd buf.gen buf.pos _ i = buf.gen i
      exact upd_other _ _ _ i (by omega)
    · show (upd buf.store buf.pos _ buf.pos).take (buf.iov_len buf.pos) =
        (buf.store buf.pos).take (buf.iov_len buf.pos)
      rw [hlen0]
      rfl
    · intro hpos
      rw [hlen0] at hpos
      omega
  · apply flattenBuf_congr
    intro i _
    unfold usedSeg
    by_cases hi : i = buf.pos
    · subst hi
      show (upd buf.store buf.pos _ buf.pos).take (buf.iov_len buf.pos) = _
      rw [hlen0]
      rfl
    · show (upd buf.store buf.pos _ i).take (buf.iov_len i) = _
      rw [upd_other _ _ _ i hi]
  · show n ≤ upd buf.capacity buf.pos _ buf.pos
    rw [upd_same]
    exact hge

theorem flattenBuf_set_pos (buf : Obuf) (p : Nat) :
    flattenBuf { buf with pos := p } = flattenBuf buf := rfl

/-- Master specification of the `obuf_dup` loop: on a well-formed buffer
with enough fuel it preserves well-formedness and the frame relation,
never gets stuck, and on success appends exactly `data` to the byte
stream, increasing `size` by `data.length`. -/
theorem obuf_dup_loop_spec (fuel : Nat) (buf : Obuf) (data : List Nat)
    (hv : ObufValid buf) (hfuel : IOBUF_IOV_MAX - buf.pos < fuel) :
    ObufValid (obuf_dup_loop fuel buf data).1 ∧
    AppendExtends buf (obuf_dup_loop fuel buf data).1 ∧
    (obuf_dup_loop fuel buf data).1.alloc_factor = buf.alloc_factor ∧
    (obuf_dup_loop fuel buf data).2 ≠ some OBErr.stuck ∧
    ((obuf_dup_loop fuel buf data).2 = none →
      flattenBuf (obuf_dup_loop fuel buf data).1 = flattenBuf buf ++ data ∧
      (obuf_dup_loop fuel buf data).1.size = buf.size + data.length) := by
  induction fuel generalizing buf data with
  | zero => exact absurd hfuel (by omega)
  | succ m ih =>
    have hposlt := hv.pos_lt
    by_cases hover : buf.iov_len buf.pos + data.length > buf.capacity buf.pos
    · by_cases hpart : buf.iov_len buf.pos < buf.capacity buf.pos
      · -- partially filled segment: fill it, advance, recurse
        have heq : obuf_dup_loop (m + 1) buf data =
            obuf_dup_loop m
              { obuf_write_cur buf (data.take (buf.capacity buf.pos - buf.iov_len buf.pos)) with
                 pos := (obuf_write_cur buf (data.take (buf.capacity buf.pos - buf.iov_len buf.pos))).pos + 1 }
              (data.drop (buf.capacity buf.pos - buf.iov_len buf.pos)) := by
          simp only [obuf_dup_loop]
          rw [if_pos hover, if_pos hpart]
        have hfill_lt : buf.capacity buf.pos - buf.iov_len buf.pos < data.length := by omega
        have htklen : (data.take (buf.capacity buf.pos - buf.iov_len buf.pos)).length =
            buf.capacity buf.pos - buf.iov_len buf.pos := by
          rw [List.length_take]
          omega
        have hlen1 : buf.iov_len buf.pos +
            (data.take (buf.capacity buf.pos - buf.iov_len buf.pos)).length ≤
            buf.capacity buf.pos := by
          rw [htklen]; omega
        have hv1 := valid_write_cur buf _ hv hlen1
        have hcappos : 0 < (obuf_write_cur buf
            (data.take (buf.capacity buf.pos - buf.iov_len buf.pos))).capacity
            (obuf_write_cur buf (data.take (buf.capacity buf.pos - buf.iov_len buf.pos))).pos := by
          show 0 < buf.capacity buf.pos
          omega
        have hv2 := valid_advance _ hv1 hcappos
        have hfuel2 : IOBUF_IOV_MAX -
            ({ obuf_write_cur buf (data.take (buf.capacity buf.pos - buf.iov_len buf.pos)) with
               pos := (obuf_write_cur buf (data.take (buf.capacity buf.pos - buf.iov_len buf.pos))).pos + 1 } : Obuf).pos < m := by
          show IOBUF_IOV_MAX - (buf.pos + 1) < m
          omega
        obtain ⟨ihv, ihae, ihaf, ihns, ihsuc⟩ := ih _ _ hv2 hfuel2
        rw [heq]
        have hoff : buf.iov_len buf.pos ≤ (buf.store buf.pos).length := by
          rw [hv.store_len buf.pos]; omega
        have haebase : AppendExtends buf
            { obuf_write_cur buf (data.take (buf.capacity buf.pos - buf.iov_len buf.pos)) with
              pos := (obuf_write_cur buf (data.take (buf.capacity buf.pos - buf.iov_len buf.pos))).pos + 1 } :=
          (ae_write_cur buf _ hoff).trans (ae_advance _)
        refine ⟨ihv, haebase.trans ihae, ihaf, ihns, ?_⟩
        intro hok
        obtain ⟨hfl, hsz⟩ := ihsuc hok
        constructor
        · rw [hfl, flattenBuf_set_pos,
            flattenBuf_write_cur buf _ hv.beyond hlen1 (hv.store_len buf.pos) hv.pos_lt,
            List.append_assoc, List.take_append_drop]
        · rw [hsz]
          show (obuf_write_cur buf (data.take (buf.capacity buf.pos - buf.iov_len buf.pos))).size +
            (data.drop (buf.capacity buf.pos - buf.iov_len buf.pos)).length = _
          show buf.size + (data.take (buf.capacity buf.pos - buf.iov_len buf.pos)).length +
            (data.drop (buf.capacity buf.pos - buf.iov_len buf.pos)).length = _
          rw [htklen, List.length_drop]
          omega
      · by_cases hcap0 : buf.capacity buf.pos = 0
        · -- unallocated segment: sentinel + allocate + final copy
          have hlen0 : buf.iov_len buf.pos = 0 := by
            have := hv.len_le buf.pos; omega
          by_cases h31 : IOBUF_IOV_MAX ≤ buf.pos + 1
          · -- the sentinel would be slot IOBUF_IOV_MAX: raise OutOfMemory
            have heq : obuf_dup_loop (m + 1) buf data = (buf, some OBErr.oom) := by
              simp only [obuf_dup_loop]
              rw [if_pos hover, if_neg hpart, if_pos hcap0,
                obuf_init_pos_overflow buf _ h31]
            rw [heq]
            refine ⟨hv, AppendExtends.rfl buf, Eq.refl _, by simp, by simp⟩
          · have hlt : buf.pos + 1 < IOBUF_IOV_MAX := by omega
            have heq : obuf_dup_loop (m + 1) buf data =
                (obuf_write_cur
                  (obuf_alloc_pos (obuf_init_pos buf (buf.pos + 1)).1 buf.pos data.length)
                  data, none) := by
              simp only [obuf_dup_loop]
              rw [if_pos hover, if_neg hpart, if_pos hcap0, obuf_init_next_eq buf hlt]
            rw [heq]
            have hXv := valid_init_next buf hv hlt
            have hXae := ae_init_next buf hlt
            have hXfl := flatten_init_next buf hv hlt
            have hXlen0 : (obuf_init_pos buf (buf.pos + 1)).1.iov_len
                ((obuf_init_pos buf (buf.pos + 1)).1.pos) = 0 := by
              rw [obuf_init_next_eq buf hlt]
              show upd buf.iov_len (buf.pos + 1) 0 buf.pos = 0
              rw [upd_other _ _ _ _ (by omega)]
              exact hlen0
            have hXne31 : (obuf_init_pos buf (buf.pos + 1)).1.pos ≠ IOBUF_IOV_MAX - 1 := by
              rw [obuf_init_next_eq buf hlt]
              show buf.pos ≠ IOBUF_IOV_MAX - 1
              omega
            have hXpos : buf.pos = (obuf_init_pos buf (buf.pos + 1)).1.pos := by
              rw [obuf_init_next_eq buf hlt]
            obtain ⟨hv2, hae2, hfl2, hcap2, hlen2, hpos2, hsize2, haf2⟩ :=
              obuf_alloc_pos_spec (obuf_init_pos buf (buf.pos + 1)).1 data.length
                buf.pos hXpos hXv hXlen0 hXne31
            rw [← hXpos] at hcap2 hpos2
            have hwlen : (obuf_alloc_pos (obuf_init_pos buf (buf.pos + 1)).1 buf.pos
                data.length).iov_len
                (obuf_alloc_pos (obuf_init_pos buf (buf.pos + 1)).1 buf.pos data.length).pos +
                data.length ≤
                (obuf_alloc_pos (obuf_init_pos buf (buf.pos + 1)).1 buf.pos
                data.length).capacity
                (obuf_alloc_pos (obuf_init_pos buf (buf.pos + 1)).1 buf.pos data.length).pos := by
              rw [hpos2, hlen2]
              have hXl : (obuf_init_pos buf (buf.pos + 1)).1.iov_len buf.pos = 0 := by
                rw [obuf_init_next_eq buf hlt]
                show upd buf.iov_len (buf.pos + 1) 0 buf.pos = 0
                rw [upd_other _ _ _ _ (by omega)]
                exact hlen0
              rw [hXl]
              omega
            have hwoff : (obuf_alloc_pos (obuf_init_pos buf (buf.pos + 1)).1 buf.pos
                data.length).iov_len
                (obuf_alloc_pos (obuf_init_pos buf (buf.pos + 1)).1 buf.pos data.length).pos ≤
                ((obuf_alloc_pos (obuf_init_pos buf (buf.pos + 1)).1 buf.pos
                data.length).store
                (obuf_alloc_pos (obuf_init_pos buf (buf.pos + 1)).1 buf.pos data.length).pos).length := by
              rw [hv2.store_len]
              exact hv2.len_le _
            refine ⟨valid_write_cur _ _ hv2 hwlen,
          ((hXae.trans hae2).trans (ae_write_cur _ _ hwoff)), ?_, by simp, ?_⟩
            · show (obuf_alloc_pos (obuf_init_pos buf (buf.pos + 1)).1 buf.pos
                data.length).alloc_factor = buf.alloc_factor
              rw [haf2]
              rw [obuf_init_next_eq buf hlt]
            · intro _
              constructor
              · rw [flattenBuf_write_cur _ _ hv2.beyond hwlen (hv2.store_len _) hv2.pos_lt,
                  hfl2, hXfl]
              · show (obuf_alloc_pos (obuf_init_pos buf (buf.pos + 1)).1 buf.pos
                  data.length).size + data.length = buf.size + data.length
                rw [hsize2]
                rw [obuf_init_next_eq buf hlt]
        · -- full segment: advance and recurse
          have hcpos : 0 < buf.capacity buf.pos := by omega
          have heq : obuf_dup_loop (m + 1) buf data =
              obuf_dup_loop m { buf with pos := buf.pos + 1 } data := by
            simp only [obuf_dup_loop]
            rw [if_pos hover, if_neg hpart, if_neg hcap0]
          rw [heq]
          have hv2 := valid_advance buf hv hcpos
          have hfuel2 : IOBUF_IOV_MAX - ({ buf with pos := buf.pos + 1 } : Obuf).pos < m := by
            show IOBUF_IOV_MAX - (buf.pos + 1) < m
            omega
          obtain ⟨ihv, ihae, ihaf, ihns, ihsuc⟩ := ih _ _ hv2 hfuel2
          refine ⟨ihv, (ae_advance buf).trans ihae, ihaf, ihns, ?_⟩
          intro hok
          obtain ⟨hfl, hsz⟩ := ihsuc hok
          exact ⟨by rw [hfl, flattenBuf_set_pos], hsz⟩
    · -- data fits in the current segment
      have heq : obuf_dup_loop (m + 1) buf data = (obuf_write_cur buf data, none) := by
        simp only [obuf_dup_loop]
        rw [if_neg hover]
      rw [heq]
      have hlen : buf.iov_len buf.pos + data.length ≤ buf.capacity buf.pos := by omega
      have hoff : buf.iov_len buf.pos ≤ (buf.store buf.pos).length := by
        rw [hv.store_len buf.pos]
        have := hv.len_le buf.pos
        omega
      refine ⟨valid_write_cur buf data hv hlen, ae_write_cur buf data hoff, Eq.refl _,
        by simp, ?_⟩
      intro _
      exact ⟨flattenBuf_write_cur buf data hv.beyond hlen (hv.store_len buf.pos) hv.pos_lt,
        Eq.refl _⟩

/-- `obuf_dup` specification: well-formedness and frame preservation,
no stuck executions, and exact byte-stream append on success. -/
theorem obuf_dup_spec (buf : Obuf) (data : List Nat) (hv : ObufValid buf) :
    ObufValid (obuf_dup buf data).1 ∧
    AppendExtends buf (obuf_dup buf data).1 ∧
    (obuf_dup buf data).1.alloc_factor = buf.alloc_factor ∧
    (obuf_dup buf data).2 ≠ some OBErr.stuck ∧
    ((obuf_dup buf data).2 = none →
      flattenBuf (obuf_dup buf data).1 = flattenBuf buf ++ data ∧
      (obuf_dup buf data).1.size = buf.size + data.length) :=
  obuf_dup_loop_spec (IOBUF_IOV_MAX + 2) buf data hv (by omega)

theorem obuf_reserve_slow_tail_spec (buf : Obuf) (n : Nat) (hv : ObufValid buf)
    (hlen0 : buf.iov_len buf.pos = 0) :
    ObufValid (obuf_reserve_slow_tail buf n).1 ∧
    AppendExtends buf (obuf_reserve_slow_tail buf n).1 ∧
    (obuf_reserve_slow_tail buf n).1.alloc_factor = buf.alloc_factor ∧
    (obuf_reserve_slow_tail buf n).1.size = buf.size ∧
    flattenBuf (obuf_reserve_slow_tail buf n).1 = flattenBuf buf ∧
    (obuf_reserve_slow_tail buf n).2 ≠ some OBErr.stuck ∧
    ((obuf_reserve_slow_tail buf n).2 = none →
      (obuf_reserve_slow_tail buf n).1.iov_len (obuf_reserve_slow_tail buf n).1.pos = 0 ∧
      n ≤ (obuf_reserve_slow_tail buf n).1.capacity (obuf_reserve_slow_tail buf n).1.pos) := by
  by_cases hcap0 : buf.capacity buf.pos = 0
  · by_cases h31 : IOBUF_IOV_MAX ≤ buf.pos + 1
    · have heq : obuf_reserve_slow_tail buf n = (buf, some OBErr.oom) := by
        unfold obuf_reserve_slow_tail
        rw [if_pos hcap0, obuf_init_pos_overflow buf _ h31]
      rw [heq]
      exact ⟨hv, AppendExtends.rfl buf, Eq.refl _, Eq.refl _, Eq.refl _, by simp, by simp⟩
    · have hlt : buf.pos + 1 < IOBUF_IOV_MAX := by omega
      have heq : obuf_reserve_slow_tail buf n =
          (obuf_alloc_pos (obuf_init_pos buf (buf.pos + 1)).1 buf.pos n, none) := by
        unfold obuf_reserve_slow_tail
        rw [if_pos hcap0, obuf_init_next_eq buf hlt]
      rw [heq]
      have hXv := valid_init_next buf hv hlt
      have hXae := ae_init_next buf hlt
      have hXfl := flatten_init_next buf hv hlt
      have hXl : (obuf_init_pos buf (buf.pos + 1)).1.iov_len buf.pos = 0 := by
        rw [obuf_init_next_eq buf hlt]
        show upd buf.iov_len (buf.pos + 1) 0 buf.pos = 0
        rw [upd_other _ _ _ _ (by omega)]
        exact hlen0
      have hXpos : buf.pos = (obuf_init_pos buf (buf.pos + 1)).1.pos := by
        rw [obuf_init_next_eq buf hlt]
      have hXlen0 : (obuf_init_pos buf (buf.pos + 1)).1.iov_len
          ((obuf_init_pos buf (buf.pos + 1)).1.pos) = 0 := by
        rw [← hXpos]
        exact hXl
      have hXne31 : (obuf_init_pos buf (buf.pos + 1)).1.pos ≠ IOBUF_IOV_MAX - 1 := by
        rw [← hXpos]
        omega
      obtain ⟨hv2, hae2, hfl2, hcap2, hlen2, hpos2, hsize2, haf2⟩ :=
        obuf_alloc_pos_spec (obuf_init_pos buf (buf.pos + 1)).1 n buf.pos hXpos
          hXv hXlen0 hXne31
      rw [← hXpos] at hcap2 hpos2
      have hXaf : (obuf_init_pos buf (buf.pos + 1)).1.alloc_factor = buf.alloc_factor := by
        rw [obuf_init_next_eq buf hlt]
      have hXsize : (obuf_init_pos buf (buf.pos + 1)).1.size = buf.size := by
        rw [obuf_init_next_eq buf hlt]
      refine ⟨hv2, hXae.trans hae2, by rw [haf2, hXaf], by rw [hsize2, hXsize],
        by rw [hfl2, hXfl], by simp, ?_⟩
      intro _
      constructor
      · rw [hlen2, hpos2]
        exact hXl
      · rw [hpos2]
        exact hcap2
  · by_cases hre : n > buf.capacity buf.pos
    · have heq : obuf_reserve_slow_tail buf n =
          (obuf_alloc_pos buf buf.pos n, none) := by
        unfold obuf_reserve_slow_tail
        rw [if_neg hcap0, if_pos hre]
      rw [heq]
      have hne31 : buf.pos ≠ IOBUF_IOV_MAX - 1 := by
        intro he
        rw [he, hv.slot31] at hcap0
        exact hcap0 (Eq.refl 0)
      obtain ⟨hv2, hae2, hfl2, hcap2, hlen2, hpos2, hsize2, haf2⟩ :=
        obuf_alloc_pos_spec buf n buf.pos (Eq.refl _) hv hlen0 hne31
      refine ⟨hv2, hae2, haf2, hsize2, hfl2, by simp, ?_⟩
      intro _
      rw [hlen2, hpos2]
      exact ⟨hlen0, hcap2⟩
    · have heq : obuf_reserve_slow_tail buf n = (buf, none) := by
        unfold obuf_reserve_slow_tail
        rw [if_neg hcap0, if_neg hre]
      rw [heq]
      refine ⟨hv, AppendExtends.rfl buf, Eq.refl _, Eq.refl _, Eq.refl _, by simp, ?_⟩
      intro _
      refine ⟨hlen0, ?_⟩
      show n ≤ buf.capacity buf.pos
      omega

theorem obuf_reserve_slow_spec (buf : Obuf) (n : Nat) (hv : ObufValid buf) :
    ObufValid (obuf_reserve_slow buf n).1 ∧
    AppendExtends buf (obuf_reserve_slow buf n).1 ∧
    (obuf_reserve_slow buf n).1.alloc_factor = buf.alloc_factor ∧
    (obuf_reserve_slow buf n).1.size = buf.size ∧
    flattenBuf (obuf_reserve_slow buf n).1 = flattenBuf buf ∧
    (obuf_reserve_slow buf n).2 ≠ some OBErr.stuck ∧
    ((obuf_reserve_slow buf n).2 = none →
      (obuf_reserve_slow buf n).1.iov_len (obuf_reserve_slow buf n).1.pos = 0 ∧
      n ≤ (obuf_reserve_slow buf n).1.capacity (obuf_reserve_slow buf n).1.pos) := by
  by_cases hadv : buf.iov_len buf.pos > 0
  · have heq : obuf_reserve_slow buf n =
        obuf_reserve_slow_tail { buf with pos := buf.pos + 1 } n := by
      unfold obuf_reserve_slow
      rw [if_pos hadv]
    rw [heq]
    have hcpos : 0 < buf.capacity buf.pos := by
      have := hv.len_le buf.pos
      omega
    have hv1 := valid_advance buf hv hcpos
    have hlen1 : ({ buf with pos := buf.pos + 1 } : Obuf).iov_len
        ({ buf with pos := buf.pos + 1 } : Obuf).pos = 0 := by
      show buf.iov_len (buf.pos + 1) = 0
      exact hv.beyond (buf.pos + 1) (by omega)
    obtain ⟨hv2, hae2, haf2, hsize2, hfl2, hns2, hsuc2⟩ :=
      obuf_reserve_slow_tail_spec { buf with pos := buf.pos + 1 } n hv1 hlen1
    exact ⟨hv2, (ae_advance buf).trans hae2, haf2, hsize2,
      by rw [hfl2, flattenBuf_set_pos], hns2, hsuc2⟩
  · have heq : obuf_reserve_slow buf n = obuf_reserve_slow_tail buf n := by
      unfold obuf_reserve_slow
      rw [if_neg hadv]
    rw [heq]
    exact obuf_reserve_slow_tail_spec buf n hv (by omega)

theorem obuf_reserve_spec (buf : Obuf) (n : Nat) (hv : ObufValid buf) :
    ObufValid (obuf_reserve buf n).1 ∧
    AppendExtends buf (obuf_reserve buf n).1 ∧
    (obuf_reserve buf n).1.alloc_factor = buf.alloc_factor ∧
    (obuf_reserve buf n).1.size = buf.size ∧
    flattenBuf (obuf_reserve buf n).1 = flattenBuf buf ∧
    (obuf_reserve buf n).2 ≠ some OBErr.stuck ∧
    ((obuf_reserve buf n).2 = none →
      (obuf_reserve buf n).1.iov_len (obuf_reserve buf n).1.pos + n ≤
      (obuf_reserve buf n).1.capacity (obuf_reserve buf n).1.pos) := by
  by_cases hfast : buf.iov_len buf.pos + n > buf.capacity buf.pos
  · have heq : obuf_reserve buf n = obuf_reserve_slow buf n := by
      unfold obuf_reserve
      rw [if_pos hfast]
    rw [heq]
    obtain ⟨hv2, hae2, haf2, hsize2, hfl2, hns2, hsuc2⟩ := obuf_reserve_slow_spec buf n hv
    refine ⟨hv2, hae2, haf2, hsize2, hfl2, hns2, ?_⟩
    intro hok
    obtain ⟨hl0, hcap⟩ := hsuc2 hok
    omega
  · have heq : obuf_reserve buf n = (buf, none) := by
      unfold obuf_reserve
      rw [if_neg hfast]
    rw [heq]
    refine ⟨hv, AppendExtends.rfl buf, Eq.refl _, Eq.refl _, Eq.refl _, by simp, ?_⟩
    intro _
    show buf.iov_len buf.pos + n ≤ buf.capacity buf.pos
    omega

/-- The C3 contract sequence behaves exactly like a committed write of
`data` at the tail of the stream. -/
theorem reserve_write_alloc_spec (buf : Obuf) (data : List Nat) (hv : ObufValid buf) :
    ObufValid (reserve_write_alloc buf data).1 ∧
    AppendExtends buf (reserve_write_alloc buf data).1 ∧
    (reserve_write_alloc buf data).1.alloc_factor = buf.alloc_factor ∧
    (reserve_write_alloc buf data).2 ≠ some OBErr.stuck ∧
    ((reserve_write_alloc buf data).2 = none →
      flattenBuf (reserve_write_alloc buf data).1 = flattenBuf buf ++ data ∧
      (reserve_write_alloc buf data).1.size = buf.size + data.length) := by
  obtain ⟨hv1, hae1, haf1, hsize1, hfl1, hns1, hsuc1⟩ := obuf_reserve_spec buf data.length hv
  rcases hR : obuf_reserve buf data.length with ⟨buf1, e⟩
  rw [hR] at hv1 hae1 haf1 hsize1 hfl1 hns1 hsuc1
  cases e with
  | some err =>
      have heqAll : reserve_write_alloc buf data = (buf1, some err) := by
        unfold reserve_write_alloc
        rw [hR]
      rw [heqAll]
      refine ⟨hv1, hae1, haf1, hns1, ?_⟩
      intro h
      exact absurd h (by simp)
  | none =>
      have hfit : buf1.iov_len buf1.pos + data.length ≤ buf1.capacity buf1.pos :=
        hsuc1 (Eq.refl _)
      have heqAll : reserve_write_alloc buf data = (obuf_write_cur buf1 data, none) := by
        unfold reserve_write_alloc
        rw [hR]
        show obuf_alloc
          { buf1 with
              store := upd buf1.store buf1.pos
                (listWrite (buf1.store buf1.pos) (buf1.iov_len buf1.pos) data) }
          data.length = (obuf_write_cur buf1 data, none)
        unfold obuf_alloc obuf_write_cur
        rw [if_neg (show ¬(buf1.iov_len buf1.pos + data.length >
          buf1.capacity buf1.pos) by omega)]
      rw [heqAll]
      have hoff1 : buf1.iov_len buf1.pos ≤ (buf1.store buf1.pos).length := by
        rw [hv1.store_len]
        exact hv1.len_le _
      refine ⟨valid_write_cur buf1 data hv1 hfit,
        hae1.trans (ae_write_cur buf1 data hoff1), ?_, by simp, ?_⟩
      · show buf1.alloc_factor = buf.alloc_factor
        exact haf1
      · intro _
        constructor
        · show flattenBuf (obuf_write_cur buf1 data) = flattenBuf buf ++ data
          rw [flattenBuf_write_cur buf1 data hv1.beyond hfit (hv1.store_len _) hv1.pos_lt,
            hfl1]
        · show buf1.size + data.length = buf.size + data.length
          rw [hsize1]

/-- One append operation behaves like appending its payload. -/
theorem applyApp_spec (buf : Obuf) (op : App) (hv : ObufValid buf) :
    ObufValid (applyApp buf op).1 ∧
    AppendExtends buf (applyApp buf op).1 ∧
    (applyApp buf op).1.alloc_factor = buf.alloc_factor ∧
    (applyApp buf op).2 ≠ some OBErr.stuck ∧
    ((applyApp buf op).2 = none →
      flattenBuf (applyApp buf op).1 = flattenBuf buf ++ appData op ∧
      (applyApp buf op).1.size = buf.size + (appData op).length) := by
  cases op with
  | viaDup d => exact obuf_dup_spec buf d hv
  | viaAlloc d => exact reserve_write_alloc_spec buf d hv

theorem applyApps_nil (buf : Obuf) : applyApps buf [] = (buf, none) := rfl

theorem applyApps_cons (buf : Obuf) (op : App) (rest : List App) :
    applyApps buf (op :: rest) =
      match applyApp buf op with
      | (buf1, some e) => (buf1, some e)
      | (buf1, none) => applyApps buf1 rest := rfl

/-- A sequence of appends behaves like appending the concatenation of
its payloads. -/
theorem applyApps_spec (ops : List App) (buf : Obuf) (hv : ObufValid buf) :
    ObufValid (applyApps buf ops).1 ∧
    AppendExtends buf (applyApps buf ops).1 ∧
    (applyApps buf ops).1.alloc_factor = buf.alloc_factor ∧
    (applyApps buf ops).2 ≠ some OBErr.stuck ∧
    ((applyApps buf ops).2 = none →
      flattenBuf (applyApps buf ops).1 = flattenBuf buf ++ appsData ops ∧
      (applyApps buf ops).1.size = buf.size + (appsData ops).length) := by
  induction ops generalizing buf with
  | nil =>
      refine ⟨hv, AppendExtends.rfl buf, Eq.refl _, by simp [applyApps], ?_⟩
      intro _
      constructor
      · show flattenBuf buf = flattenBuf buf ++ appsData []
        simp [appsData]
      · show buf.size = buf.size + (appsData []).length
        simp [appsData]
  | cons op rest ih =>
      obtain ⟨hv1, hae1, haf1, hns1, hsuc1⟩ := applyApp_spec buf op hv
      rcases hA : applyApp buf op with ⟨buf1, e⟩
      rw [hA] at hv1 hae1 haf1 hns1 hsuc1
      cases e with
      | some err =>
          have heq : applyApps buf (op :: rest) = (buf1, some err) := by
            rw [applyApps_cons, hA]
          rw [heq]
          refine ⟨hv1, hae1, haf1, hns1, ?_⟩
          intro h
          exact absurd h (by simp)
      | none =>
          have heq : applyApps buf (op :: rest) = applyApps buf1 rest := by
            rw [applyApps_cons, hA]
          rw [heq]
          obtain ⟨hv2, hae2, haf2, hns2, hsuc2⟩ := ih buf1 hv1
          obtain ⟨hflop, hszop⟩ := hsuc1 (Eq.refl _)
          refine ⟨hv2, hae1.trans hae2, by rw [haf2, haf1], hns2, ?_⟩
          intro hok
          obtain ⟨hfl, hsz⟩ := hsuc2 hok
          constructor
          · rw [hfl, hflop]
            show flattenBuf buf ++ appData op ++ appsData rest =
              flattenBuf buf ++ appsData (op :: rest)
            unfold appsData
            rw [List.map_cons, List.flatten_cons, List.append_assoc]
          · rw [hsz, hszop]
            show buf.size + (appData op).length + (appsData rest).length =
              buf.size + (appsData (op :: rest)).length
            unfold appsData
            rw [List.map_cons, List.flatten_cons, List.length_append]
            omega

/-! ## Rollback and creation -/

theorem obuf_rollback_fields (buf : Obuf) (svp : ObufSvp) :
    (obuf_rollback_to_svp buf svp).pos = svp.pos ∧
    (obuf_rollback_to_svp buf svp).size = svp.size ∧
    (obuf_rollback_to_svp buf svp).store = buf.store ∧
    (obuf_rollback_to_svp buf svp).capacity = buf.capacity ∧
    (obuf_rollback_to_svp buf svp).gen = buf.gen ∧
    (obuf_rollback_to_svp buf svp).alloc_factor = buf.alloc_factor :=
  ⟨Eq.refl _, Eq.refl _, Eq.refl _, Eq.refl _, Eq.refl _, Eq.refl _⟩

theorem obuf_rollback_len (buf : Obuf) (svp : ObufSvp) (hv : ObufValid buf)
    (_hsp : svp.pos ≤ buf.pos) :
    (∀ i, i < svp.pos → (obuf_rollback_to_svp buf svp).iov_len i = buf.iov_len i) ∧
    (obuf_rollback_to_svp buf svp).iov_len svp.pos = svp.iov_len ∧
    (∀ i, svp.pos < i → (obuf_rollback_to_svp buf svp).iov_len i = 0) := by
  refine ⟨?_, ?_, ?_⟩
  · intro i hi
    show zeroRange (upd buf.iov_len svp.pos svp.iov_len) (svp.pos + 1)
      (obuf_iovcnt buf) i = buf.iov_len i
    unfold zeroRange
    rw [if_neg (by omega)]
    exact upd_other _ _ _ i (by omega)
  · show zeroRange (upd buf.iov_len svp.pos svp.iov_len) (svp.pos + 1)
      (obuf_iovcnt buf) svp.pos = svp.iov_len
    unfold zeroRange
    rw [if_neg (by omega)]
    exact upd_same _ _ _
  · intro i hi
    show zeroRange (upd buf.iov_len svp.pos svp.iov_len) (svp.pos + 1)
      (obuf_iovcnt buf) i = 0
    unfold zeroRange
    by_cases hin : svp.pos + 1 ≤ i ∧ i < obuf_iovcnt buf
    · rw [if_pos hin]
    · rw [if_neg hin, upd_other _ _ _ i (by omega)]
      unfold obuf_iovcnt at hin
      by_cases hl : buf.iov_len buf.pos > 0
      · rw [if_pos hl] at hin
        exact hv.beyond i (by omega)
      · rw [if_neg hl] at hin
        rcases Nat.lt_or_ge buf.pos i with h | h
        · exact hv.beyond i h
        · have : i = buf.pos := by omega
          rw [this]
          omega

theorem valid_rollback (buf : Obuf) (svp : ObufSvp) (hv : ObufValid buf)
    (hsp : svp.pos ≤ buf.pos) (hsl : svp.iov_len ≤ buf.capacity svp.pos) :
    ObufValid (obuf_rollback_to_svp buf svp) := by
  obtain ⟨hlow, hat, hhigh⟩ := obuf_rollback_len buf svp hv hsp
  have hposlt := hv.pos_lt
  refine ⟨hv.af_pos, by show svp.pos < IOBUF_IOV_MAX; omega, ?_, hv.store_len, ?_,
    hv.high, ?_, hv.slot31⟩
  · intro i
    show (obuf_rollback_to_svp buf svp).iov_len i ≤ buf.capacity i
    rcases Nat.lt_trichotomy i svp.pos with h | h | h
    · rw [hlow i h]; exact hv.len_le i
    · rw [h, hat]; exact hsl
    · rw [hhigh i h]; omega
  · intro i hi
    have hi2 : svp.pos < i := hi
    exact hhigh i hi2
  · intro i hi
    have hi2 : i < svp.pos := hi
    exact hv.contig i (by omega)

theorem upd_const_zero (j i : Nat) : upd (fun _ => 0) j 0 i = 0 := by
  unfold upd
  split <;> rfl

theorem obuf_create_capacity (alloc_factor i : Nat) :
    (obuf_create alloc_factor).capacity i = 0 := by
  unfold obuf_create obuf_init_pos
  rw [if_neg (by decide)]
  exact upd_const_zero 0 i

theorem obuf_create_iov_len (alloc_factor i : Nat) :
    (obuf_create alloc_factor).iov_len i = 0 := by
  unfold obuf_create obuf_init_pos
  rw [if_neg (by decide)]
  exact upd_const_zero 0 i

theorem obuf_create_store (alloc_factor i : Nat) :
    (obuf_create alloc_factor).store i = [] := by
  unfold obuf_create obuf_init_pos
  rw [if_neg (by decide)]
  show (if i = 0 then [] else []) = []
  split <;> rfl

theorem valid_obuf_create (alloc_factor : Nat) (haf : 0 < alloc_factor) :
    ObufValid (obuf_create alloc_factor) := by
  refine ⟨haf, by show (0 : Nat) < IOBUF_IOV_MAX; decide, ?_, ?_, ?_, ?_, ?_, ?_⟩
  · intro i
    rw [obuf_create_iov_len, obuf_create_capacity]
  · intro i
    rw [obuf_create_store, obuf_create_capacity]
    rfl
  · intro i _
    exact obuf_create_iov_len alloc_factor i
  · intro i _
    exact obuf_create_capacity alloc_factor i
  · intro i hi
    have hi2 : i < (obuf_create alloc_factor).pos := hi
    have : (obuf_create alloc_factor).pos = 0 := rfl
    rw [this] at hi2
    omega
  · exact obuf_create_capacity alloc_factor _

theorem obuf_create_pos (alloc_factor : Nat) : (obuf_create alloc_factor).pos = 0 := rfl

theorem obuf_create_size (alloc_factor : Nat) : (obuf_create alloc_factor).size = 0 := rfl

theorem flattenBuf_create (alloc_factor : Nat) :
    flattenBuf (obuf_create alloc_factor) = [] := by
  apply flattenBuf_congr (obuf_create alloc_factor)
    { obuf_create alloc_factor with iov_len := fun _ => 0 } ?_ |>.trans ?_
  · intro i _
    unfold usedSeg
    show _ = List.take 0 _
    rw [obuf_create_iov_len]
  · unfold flattenBuf
    apply List.eq_nil_of_length_eq_zero
    rw [List.length_flatten]
    apply List.sum_eq_zero
    intro x hx
    rw [List.map_map] at hx
    obtain ⟨i, _, hix⟩ := List.mem_map.mp hx
    rw [← hix]
    rfl

/-! ## Input/output pair (`struct iobuf`) -/

/-- `struct iobuf`: an input buffer, an output buffer and a pin count
(`pins` is a C `int`, so it is modelled as an integer). -/
structure Iobuf : Type where
  in_ : Ibuf
  out : Obuf
  pins : Int

/-- `iobuf_pin`. -/
def iobuf_pin (iobuf : Iobuf) : Iobuf :=
  { iobuf with pins := iobuf.pins + 1 }

/-- `iobuf_unpin`. -/
def iobuf_unpin (iobuf : Iobuf) : Iobuf :=
  { iobuf with pins := iobuf.pins - 1 }

/-- `iobuf_is_idle`: no input, no output, nobody pinned the buffer. -/
def iobuf_is_idle (iobuf : Iobuf) : Bool :=
  ibuf_size iobuf.in_ == 0 && obuf_size iobuf.out == 0 && iobuf.pins == 0

/-- A helper turning a decidable success test into the pair equation the
round-trip theorems take as hypothesis. -/
theorem prod_eq_of_snd {α β : Type} (p : α × β) (b : β) (h : p.2 = b) :
    p = (p.1, b) := by
  cases p
  cases h
  rfl

/-! ## The full operation alphabet of the output buffer -/

theorem obuf_alloc_commit_spec (buf : Obuf) (n : Nat) (hv : ObufValid buf)
    (hfit : buf.iov_len buf.pos + n ≤ buf.capacity buf.pos) :
    ObufValid ({ buf with
      iov_len := upd buf.iov_len buf.pos (buf.iov_len buf.pos + n),
      size := buf.size + n } : Obuf) := by
  refine ⟨hv.af_pos, hv.pos_lt, ?_, hv.store_len, ?_, hv.high, hv.contig, hv.slot31⟩
  · intro i
    show upd buf.iov_len buf.pos (buf.iov_len buf.pos + n) i ≤ buf.capacity i
    by_cases hi : i = buf.pos
    · subst hi; rw [upd_same]; omega
    · rw [upd_other _ _ _ i hi]; exact hv.len_le i
  · intro i hi
    have hi2 : buf.pos < i := hi
    show upd buf.iov_len buf.pos (buf.iov_len buf.pos + n) i = 0
    rw [upd_other _ _ _ i (by omega)]
    exact hv.beyond i hi2

theorem obuf_alloc_spec (buf : Obuf) (n : Nat) (hv : ObufValid buf) :
    ObufValid (obuf_alloc buf n).1 ∧
    (obuf_alloc buf n).2 ≠ some OBErr.stuck := by
  by_cases hguard : buf.iov_len buf.pos + n > buf.capacity buf.pos
  · obtain ⟨hv1, hae1, haf1, hsize1, hfl1, hns1, hsuc1⟩ := obuf_reserve_slow_spec buf n hv
    rcases hS : obuf_reserve_slow buf n with ⟨buf1, e⟩
    rw [hS] at hv1 hns1 hsuc1
    cases e with
    | some err =>
        have heq : obuf_alloc buf n = (buf1, some err) := by
          unfold obuf_alloc
          rw [if_pos hguard, hS]
        rw [heq]
        exact ⟨hv1, hns1⟩
    | none =>
        obtain ⟨hl0, hcap⟩ := hsuc1 (Eq.refl _)
        have heq : obuf_alloc buf n =
            ({ buf1 with
                iov_len := upd buf1.iov_len buf1.pos (buf1.iov_len buf1.pos + n),
                size := buf1.size + n }, none) := by
          unfold obuf_alloc
          rw [if_pos hguard, hS]
        rw [heq]
        refine ⟨obuf_alloc_commit_spec buf1 n hv1 ?_, by simp⟩
        have hl0' : buf1.iov_len buf1.pos = 0 := hl0
        have hcap' : n ≤ buf1.capacity buf1.pos := hcap
        omega
  · have heq : obuf_alloc buf n =
        ({ buf with
            iov_len := upd buf.iov_len buf.pos (buf.iov_len buf.pos + n),
            size := buf.size + n }, none) := by
      unfold obuf_alloc
      rw [if_neg hguard]
    rw [heq]
    exact ⟨obuf_alloc_commit_spec buf n hv (by omega), by simp⟩

theorem obuf_book_spec (buf : Obuf) (n : Nat) (hv : ObufValid buf) :
    ObufValid ((obuf_book buf n).1).1 ∧
    ((obuf_book buf n).1).2 ≠ some OBErr.stuck := by
  obtain ⟨hv1, hae1, haf1, hsize1, hfl1, hns1, hsuc1⟩ := obuf_reserve_spec buf n hv
  rcases hR : obuf_reserve buf n with ⟨buf1, e⟩
  rw [hR] at hv1 hns1 hsuc1
  cases e with
  | some err =>
      have heq : obuf_book buf n = ((buf1, some err), { pos := 0, iov_len := 0, size := 0 }) := by
        unfold obuf_book
        rw [hR]
      rw [heq]
      exact ⟨hv1, hns1⟩
  | none =>
      have hfit : buf1.iov_len buf1.pos + n ≤ buf1.capacity buf1.pos := hsuc1 (Eq.refl _)
      have heq : obuf_book buf n = (obuf_alloc buf1 n, obuf_create_svp buf1) := by
        unfold obuf_book
        rw [hR]
      rw [heq]
      exact obuf_alloc_spec buf1 n hv1

/-- The operations a caller can perform on an output buffer between
creation and reset. -/
inductive ObufOp : Type
  | opDup (data : List Nat)
  | opWriteAlloc (data : List Nat)
  | opAlloc (n : Nat)
  | opReserve (n : Nat)
  | opReserveSlow (n : Nat)
  | opBook (n : Nat)
  | opRollback (svp : ObufSvp)

def applyObufOp (buf : Obuf) (op : ObufOp) : Obuf × Option OBErr :=
  match op with
  | ObufOp.opDup d => obuf_dup buf d
  | ObufOp.opWriteAlloc d => reserve_write_alloc buf d
  | ObufOp.opAlloc n => obuf_alloc buf n
  | ObufOp.opReserve n => obuf_reserve buf n
  | ObufOp.opReserveSlow n => obuf_reserve_slow buf n
  | ObufOp.opBook n => (obuf_book buf n).1
  | ObufOp.opRollback svp => (obuf_rollback_to_svp buf svp, none)

/-- Validity of an operation against the current state: a rollback needs
a savepoint that was actually captured before (its coordinates lie inside
the current buffer extent; the source enforces this by convention, not at
runtime). -/
def ObufOpValid (buf : Obuf) : ObufOp → Prop
  | ObufOp.opRollback svp => svp.pos ≤ buf.pos ∧ svp.iov_len ≤ buf.capacity svp.pos
  | _ => True

theorem applyObufOp_valid (buf : Obuf) (op : ObufOp) (hv : ObufValid buf)
    (hop : ObufOpValid buf op) :
    ObufValid (applyObufOp buf op).1 ∧ (applyObufOp buf op).2 ≠ some OBErr.stuck := by
  cases op with
  | opDup d =>
      obtain ⟨h1, _, _, h4, _⟩ := obuf_dup_spec buf d hv
      exact ⟨h1, h4⟩
  | opWriteAlloc d =>
      obtain ⟨h1, _, _, h4, _⟩ := reserve_write_alloc_spec buf d hv
      exact ⟨h1, h4⟩
  | opAlloc n => exact obuf_alloc_spec buf n hv
  | opReserve n =>
      obtain ⟨h1, _, _, _, _, h6, _⟩ := obuf_reserve_spec buf n hv
      exact ⟨h1, h6⟩
  | opReserveSlow n =>
      obtain ⟨h1, _, _, _, _, h6, _⟩ := obuf_reserve_slow_spec buf n hv
      exact ⟨h1, h6⟩
  | opBook n => exact obuf_book_spec buf n hv
  | opRollback svp =>
      exact ⟨valid_rollback buf svp hv hop.1 hop.2, by simp [applyObufOp]⟩

/-! ## Claim theorems -/

/-- C2: appending any list of sub-chunks in order via `obuf_dup` to a
fresh output buffer yields segments whose concatenation in segment order
(`flattenBuf`: segment 0 first, each segment's first `iov_len` bytes)
equals the original byte stream, and the buffer's size equals the
stream's total length. -/
theorem obuf_dup_roundtrip (alloc_factor : Nat) (hf : 0 < alloc_factor)
    (chunks : List (List Nat))
    (h : (applyApps (obuf_create alloc_factor) (chunks.map App.viaDup)).2 = none) :
    flattenBuf (applyApps (obuf_create alloc_factor) (chunks.map App.viaDup)).1 =
      chunks.flatten ∧
    obuf_size (applyApps (obuf_create alloc_factor) (chunks.map App.viaDup)).1 =
      chunks.flatten.length := by
  obtain ⟨_, _, _, _, hsuc⟩ := applyApps_spec (chunks.map App.viaDup)
    (obuf_create alloc_factor) (valid_obuf_create alloc_factor hf)
  obtain ⟨hfl, hsz⟩ := hsuc h
  have hdata : appsData (chunks.map App.viaDup) = chunks.flatten := by
    unfold appsData
    rw [List.map_map]
    have hcomp : appData ∘ App.viaDup = id := rfl
    rw [hcomp, List.map_id]
  constructor
  · rw [hfl, flattenBuf_create, hdata]
    exact List.nil_append _
  · show (applyApps (obuf_create alloc_factor) (chunks.map App.viaDup)).1.size = _
    rw [hsz, obuf_create_size, hdata]
    omega

theorem obuf_dup_roundtrip_witness :
    (0 : Nat) < 2 ∧
    (applyApps (obuf_create 2) ([[1, 2], [3]].map App.viaDup)).2 = none ∧
    flattenBuf (applyApps (obuf_create 2) ([[1, 2], [3]].map App.viaDup)).1 =
      [1, 2, 3] :=
  ⟨by decide, by decide,
   (obuf_dup_roundtrip 2 (by decide) [[1, 2], [3]] (by decide)).1.trans (by decide)⟩

/-- C3: `obuf_reserve(n)` then writing exactly `n` bytes at the returned
pointer then `obuf_alloc(n)` increases `obuf_size` by exactly `n`,
appends exactly those bytes, and leaves every previously written byte
unchanged at its previously returned address (its segment keeps the same
allocation — `gen` unchanged — and the same used prefix).  This holds in
particular when `n` exactly equals the current segment's remaining
capacity (see the witness). -/
theorem obuf_reserve_alloc_contract (buf : Obuf) (data : List Nat) (hv : ObufValid buf)
    (h : (reserve_write_alloc buf data).2 = none) :
    obuf_size (reserve_write_alloc buf data).1 = obuf_size buf + data.length ∧
    flattenBuf (reserve_write_alloc buf data).1 = flattenBuf buf ++ data ∧
    ∀ i, 0 < buf.iov_len i →
      (reserve_write_alloc buf data).1.gen i = buf.gen i ∧
      ((reserve_write_alloc buf data).1.store i).take (buf.iov_len i) =
        (buf.store i).take (buf.iov_len i) ∧
      buf.iov_len i ≤ (reserve_write_alloc buf data).1.iov_len i := by
  obtain ⟨hv1, hae, haf, hns, hsuc⟩ := reserve_write_alloc_spec buf data hv
  obtain ⟨hfl, hsz⟩ := hsuc h
  refine ⟨hsz, hfl, ?_⟩
  intro i hi
  rcases Nat.lt_trichotomy i buf.pos with hlt | heq | hgt
  · exact ⟨hae.low_gen i hlt, by rw [hae.low_store i hlt], by rw [hae.low_len i hlt]⟩
  · subst heq
    exact ⟨(hae.cur_gen hi).1, hae.cur_keep, hae.cur_mono⟩
  · exact absurd hi (by rw [hv.beyond i hgt]; omega)

theorem obuf_reserve_alloc_contract_witness :
    (obuf_dup (obuf_create 2) [7]).1.capacity 0 -
      (obuf_dup (obuf_create 2) [7]).1.iov_len 0 = 1 ∧
    (reserve_write_alloc (obuf_dup (obuf_create 2) [7]).1 [9]).2 = none ∧
    obuf_size (reserve_write_alloc (obuf_dup (obuf_create 2) [7]).1 [9]).1 =
      obuf_size (obuf_dup (obuf_create 2) [7]).1 + 1 :=
  ⟨by decide, by decide,
   (obuf_reserve_alloc_contract (obuf_dup (obuf_create 2) [7]).1 [9]
      (obuf_dup_spec (obuf_create 2) [7] (valid_obuf_create 2 (by decide))).1
      (by decide)).1⟩

/-- A well-formed output buffer whose 31 usable segments are all
materialized and full: the next spilling append must raise. -/
def fullCapState : Obuf :=
  { pos := 30, size := 31, alloc_factor := 1,
    capacity := fun i => if i ≤ 30 then 1 else 0,
    iov_len := fun i => if i ≤ 30 then 1 else 0,
    store := fun i => if i ≤ 30 then [3] else [],
    gen := fun _ => 0 }

theorem fullCapState_valid : ObufValid fullCapState := by
  refine ⟨by decide, by decide, ?_, ?_, ?_, ?_, ?_, by decide⟩
  · intro i
    show (if i ≤ 30 then 1 else 0) ≤ (if i ≤ 30 then 1 else 0)
    omega
  · intro i
    show (if i ≤ 30 then ([3] : List Nat) else []).length = if i ≤ 30 then 1 else 0
    by_cases h : i ≤ 30
    · rw [if_pos h, if_pos h]
      rfl
    · rw [if_neg h, if_neg h]
      rfl
  · intro i hi
    have hi2 : (30 : Nat) < i := hi
    show (if i ≤ 30 then 1 else 0) = 0
    rw [if_neg (by omega)]
  · intro i hi
    have hi2 : IOBUF_IOV_MAX ≤ i := hi
    show (if i ≤ 30 then 1 else 0) = 0
    have hi3 : (32 : Nat) ≤ i := hi2
    rw [if_neg (by omega)]
  · intro i hi
    have hi2 : i < (30 : Nat) := hi
    show 0 < (if i ≤ 30 then 1 else 0)
    rw [if_pos (by omega)]
    omega

/-- C4: on a well-formed output buffer, `obuf_dup` either succeeds or
raises the OutOfMemory condition (never anything else); in both cases the
resulting buffer is well formed and every previously written byte is
still there, in its segment, unchanged — the state held before the
failing call stays valid and usable. -/
theorem obuf_dup_segment_cap_error (buf : Obuf) (data : List Nat) (hv : ObufValid buf) :
    ((obuf_dup buf data).2 = none ∨ (obuf_dup buf data).2 = some OBErr.oom) ∧
    ObufValid (obuf_dup buf data).1 ∧
    (obuf_dup buf data).1.alloc_factor = buf.alloc_factor ∧
    ∀ i, 0 < buf.iov_len i →
      ((obuf_dup buf data).1.store i).take (buf.iov_len i) =
        (buf.store i).take (buf.iov_len i) ∧
      buf.iov_len i ≤ (obuf_dup buf data).1.iov_len i := by
  obtain ⟨hv1, hae, haf, hns, _⟩ := obuf_dup_spec buf data hv
  refine ⟨?_, hv1, haf, ?_⟩
  · rcases he : (obuf_dup buf data).2 with _ | e
    · exact Or.inl (Eq.refl _)
    · cases e with
      | oom => exact Or.inr (Eq.refl _)
      | stuck => exact absurd he hns
  · intro i hi
    rcases Nat.lt_trichotomy i buf.pos with hlt | heq | hgt
    · exact ⟨by rw [hae.low_store i hlt], by rw [hae.low_len i hlt]⟩
    · subst heq
      exact ⟨hae.cur_keep, hae.cur_mono⟩
    · exact absurd hi (by rw [hv.beyond i hgt]; omega)

theorem obuf_dup_segment_cap_error_witness :
    (obuf_dup fullCapState [4, 4]).2 = some OBErr.oom ∧
    ObufValid (obuf_dup fullCapState [4, 4]).1 :=
  ⟨by decide, (obuf_dup_segment_cap_error fullCapState [4, 4] fullCapState_valid).2.1⟩

/-- C9: over the whole operation alphabet, segment index
`IOBUF_IOV_MAX - 1 = 31` never holds data on any well-formed buffer — the
iovec array keeps a zero sentinel in its last slot, because materializing
slot 31 would first initialize the sentinel at index 32, and
`obuf_init_pos` raises OutOfMemory there. -/
theorem obuf_segment31_never_used (buf : Obuf) (op : ObufOp) (hv : ObufValid buf)
    (hop : ObufOpValid buf op) :
    (applyObufOp buf op).1.iov_len (IOBUF_IOV_MAX - 1) = 0 ∧
    (applyObufOp buf op).1.capacity (IOBUF_IOV_MAX - 1) = 0 ∧
    (obuf_init_pos buf IOBUF_IOV_MAX).2 = some OBErr.oom := by
  obtain ⟨hv1, _⟩ := applyObufOp_valid buf op hv hop
  refine ⟨?_, hv1.slot31, ?_⟩
  · have h1 := hv1.len_le (IOBUF_IOV_MAX - 1)
    rw [hv1.slot31] at h1
    omega
  · rw [obuf_init_pos_overflow buf IOBUF_IOV_MAX (Nat.le_refl _)]

theorem obuf_segment31_never_used_witness :
    (applyObufOp fullCapState (ObufOp.opDup [4, 4])).2 = some OBErr.oom ∧
    (applyObufOp fullCapState (ObufOp.opDup [4, 4])).1.iov_len (IOBUF_IOV_MAX - 1) = 0 :=
  ⟨by decide,
   (obuf_segment31_never_used fullCapState (ObufOp.opDup [4, 4]) fullCapState_valid
      trivial).1⟩

/-- The concrete scenario of C7: growth factor 128, append 100 bytes,
then 50 bytes, savepoint at size 100, rollback. -/
def c7s1 : Obuf := (obuf_dup (obuf_create 128) (List.replicate 100 7)).1

def c7s2 : Obuf := (obuf_dup c7s1 (List.replicate 50 8)).1

def c7s3 : Obuf := obuf_rollback_to_svp c7s2 (obuf_create_svp c7s1)

/-- C7 counterexample: in the concrete scenario the second append fills
segment 0 from 100 up to its capacity 128 with 28 bytes (not 30) and
spills 22 bytes (not 20) into segment 1. -/
theorem obuf_growth_scenario_counterexample :
    c7s1.iov_len 0 = 100 ∧
    c7s2.iov_len 0 = 128 ∧
    c7s2.iov_len 1 = 22 ∧
    ¬ c7s2.iov_len 1 = 20 := by decide

/-- C7 (amended): growth factor 128; appending 100 bytes via `obuf_dup`
leaves size 100 entirely in segment 0; appending 50 more fills segment 0
to 128 with 28 of them and spills the remaining 22 into a newly
materialized segment 1 of capacity at least 256, giving final size 150
and iovec count 2; a savepoint captured at size 100, rolled back after
the 50-byte append, restores size 100 and iovec count 1. -/
theorem obuf_growth_scenario :
    (obuf_dup (obuf_create 128) (List.replicate 100 7)).2 = none ∧
    c7s1.size = 100 ∧ obuf_iovcnt c7s1 = 1 ∧ c7s1.iov_len 1 = 0 ∧
    (obuf_dup c7s1 (List.replicate 50 8)).2 = none ∧
    c7s2.iov_len 0 = 128 ∧ c7s2.iov_len 1 = 22 ∧
    256 ≤ c7s2.capacity 1 ∧
    c7s2.size = 150 ∧ obuf_iovcnt c7s2 = 2 ∧
    c7s3.size = 100 ∧ obuf_iovcnt c7s3 = 1 := by decide

/-- The failing input of C6: a buffer whose current segment 0 holds 3
bytes while segment 1 is materialized with capacity 8 and no used bytes
(reached from a fresh buffer with factor 2 by appending 3 + 2 bytes and
rolling back to a savepoint at size 3). -/
def c6state : Obuf :=
  obuf_rollback_to_svp
    (obuf_dup (obuf_dup (obuf_create 2) [9, 9, 9]).1 [8, 8]).1
    (obuf_create_svp (obuf_dup (obuf_create 2) [9, 9, 9]).1)

/-- C6: `obuf_reserve_slow(20)` on `c6state` advances to segment 1,
whose nonzero capacity 8 is insufficient, takes the realloc branch and
(in release semantics) reallocates the segment to capacity ≥ 20 with a
writable region of ≥ 20 bytes — but the branch invokes `obuf_alloc_pos`
with its entry assertion `capacity[pos] == 0` violated, so a debug build
aborts where the spec (and the code's own "Simply realloc." comment)
promise success. -/
theorem obuf_reserve_slow_realloc_assert_bug :
    0 < c6state.iov_len c6state.pos ∧
    c6state.capacity (c6state.pos + 1) = 8 ∧
    c6state.iov_len (c6state.pos + 1) = 0 ∧
    ¬ obuf_alloc_pos_cap_assert { c6state with pos := c6state.pos + 1 }
        (c6state.pos + 1) ∧
    (obuf_reserve_slow c6state 20).2 = none ∧
    20 ≤ (obuf_reserve_slow c6state 20).1.capacity
      ((obuf_reserve_slow c6state 20).1.pos) ∧
    (obuf_reserve_slow c6state 20).1.iov_len
      ((obuf_reserve_slow c6state 20).1.pos) = 0 := by decide

/-- C1 (amended): for a savepoint captured with `obuf_create_svp` after a
successful append sequence A, appending further data B via
`obuf_dup`/`obuf_alloc` and then calling `obuf_rollback_to_svp` restores
the buffer's total size, current-segment index, every segment's used
length and used contents bit-identically to the state immediately after
A; and a subsequent append sequence C produces the same byte stream as if
B had never been appended.  (The original claim also allowed the
savepoint to come from `obuf_book`; rollback then restores size and
contents but not necessarily the current-segment index — see the
counterexample.) -/
theorem obuf_savepoint_rollback_restores (alloc_factor : Nat) (hf : 0 < alloc_factor)
    (A B : List App) (s1 s2 : Obuf)
    (hA : applyApps (obuf_create alloc_factor) A = (s1, none))
    (hB : applyApps s1 B = (s2, none)) :
    (obuf_rollback_to_svp s2 (obuf_create_svp s1)).size = s1.size ∧
    (obuf_rollback_to_svp s2 (obuf_create_svp s1)).pos = s1.pos ∧
    (∀ i, (obuf_rollback_to_svp s2 (obuf_create_svp s1)).iov_len i = s1.iov_len i) ∧
    (∀ i, usedSeg (obuf_rollback_to_svp s2 (obuf_create_svp s1)) i = usedSeg s1 i) ∧
    flattenBuf (obuf_rollback_to_svp s2 (obuf_create_svp s1)) = flattenBuf s1 ∧
    ∀ C : List App,
      (applyApps (obuf_rollback_to_svp s2 (obuf_create_svp s1)) C).2 = none →
      (applyApps s1 C).2 = none →
      flattenBuf (applyApps (obuf_rollback_to_svp s2 (obuf_create_svp s1)) C).1 =
        flattenBuf (applyApps s1 C).1 := by
  obtain ⟨hv1', _, _, _, _⟩ :=
    applyApps_spec A (obuf_create alloc_factor) (valid_obuf_create alloc_factor hf)
  rw [hA] at hv1'
  have hv1 : ObufValid s1 := hv1'
  obtain ⟨hv2', hae', _, _, _⟩ := applyApps_spec B s1 hv1
  rw [hB] at hv2' hae'
  have hv2 : ObufValid s2 := hv2'
  have hae : AppendExtends s1 s2 := hae'
  have hsp : (obuf_create_svp s1).pos ≤ s2.pos := hae.pos_le
  have hsl : (obuf_create_svp s1).iov_len ≤ s2.capacity (obuf_create_svp s1).pos := by
    show s1.iov_len s1.pos ≤ s2.capacity s1.pos
    by_cases hz : 0 < s1.iov_len s1.pos
    · rw [(hae.cur_gen hz).2]
      exact hv1.len_le s1.pos
    · omega
  obtain ⟨hlow, hat, hhigh⟩ := obuf_rollback_len s2 (obuf_create_svp s1) hv2 hsp
  have hlen_eq : ∀ i,
      (obuf_rollback_to_svp s2 (obuf_create_svp s1)).iov_len i = s1.iov_len i := by
    intro i
    rcases Nat.lt_trichotomy i s1.pos with hlt | heq | hgt
    · rw [hlow i hlt]
      exact hae.low_len i hlt
    · subst heq
      exact hat
    · rw [hhigh i hgt, hv1.beyond i hgt]
  have hused : ∀ i,
      usedSeg (obuf_rollback_to_svp s2 (obuf_create_svp s1)) i = usedSeg s1 i := by
    intro i
    unfold usedSeg
    rw [hlen_eq i]
    rcases Nat.lt_trichotomy i s1.pos with hlt | heq | hgt
    · show (s2.store i).take (s1.iov_len i) = (s1.store i).take (s1.iov_len i)
      rw [hae.low_store i hlt]
    · subst heq
      show (s2.store s1.pos).take (s1.iov_len s1.pos) =
        (s1.store s1.pos).take (s1.iov_len s1.pos)
      exact hae.cur_keep
    · rw [hv1.beyond i hgt]
      show (s2.store i).take 0 = (s1.store i).take 0
      rw [List.take_zero, List.take_zero]
  have hfl : flattenBuf (obuf_rollback_to_svp s2 (obuf_create_svp s1)) =
      flattenBuf s1 := flattenBuf_congr _ _ (fun i _ => hused i)
  refine ⟨Eq.refl _, Eq.refl _, hlen_eq, hused, hfl, ?_⟩
  intro C hC1 hC2
  have hvrb : ObufValid (obuf_rollback_to_svp s2 (obuf_create_svp s1)) :=
    valid_rollback s2 (obuf_create_svp s1) hv2 hsp hsl
  obtain ⟨_, _, _, _, hsucA⟩ :=
    applyApps_spec C (obuf_rollback_to_svp s2 (obuf_create_svp s1)) hvrb
  obtain ⟨hflA, _⟩ := hsucA hC1
  obtain ⟨_, _, _, _, hsucB⟩ := applyApps_spec C s1 hv1
  obtain ⟨hflB, _⟩ := hsucB hC2
  rw [hflA, hflB, hfl]

theorem obuf_savepoint_rollback_restores_witness :
    (applyApps (obuf_create 2) [App.viaDup [1]]).2 = none ∧
    (applyApps (applyApps (obuf_create 2) [App.viaDup [1]]).1 [App.viaDup [2]]).2 =
      none ∧
    (obuf_rollback_to_svp
        (applyApps (applyApps (obuf_create 2) [App.viaDup [1]]).1 [App.viaDup [2]]).1
        (obuf_create_svp (applyApps (obuf_create 2) [App.viaDup [1]]).1)).size =
      (applyApps (obuf_create 2) [App.viaDup [1]]).1.size :=
  ⟨by decide, by decide,
   (obuf_savepoint_rollback_restores 2 (by decide) [App.viaDup [1]] [App.viaDup [2]]
      (applyApps (obuf_create 2) [App.viaDup [1]]).1
      (applyApps (applyApps (obuf_create 2) [App.viaDup [1]]).1 [App.viaDup [2]]).1
      (prod_eq_of_snd _ none (by decide))
      (prod_eq_of_snd _ none (by decide))).1⟩

/-- C1 counterexample: a savepoint captured by `obuf_book` whose internal
reserve crosses a segment boundary does not restore the current-segment
index.  After A = one 1-byte `obuf_dup` on a factor-2 buffer the current
segment index is 0; `obuf_book(2)` advances to segment 1 before taking
the snapshot, so after appending B and rolling back the current-segment
index is 1, not 0 — the rollback state is not bit-identical to the state
immediately after A. -/
theorem obuf_savepoint_book_pos_counterexample :
    (obuf_dup (obuf_create 2) [1]).2 = none ∧
    ((obuf_book (obuf_dup (obuf_create 2) [1]).1 2).1).2 = none ∧
    (obuf_dup ((obuf_book (obuf_dup (obuf_create 2) [1]).1 2).1).1 [5]).2 = none ∧
    (obuf_dup (obuf_create 2) [1]).1.pos = 0 ∧
    ¬ (obuf_rollback_to_svp
        (obuf_dup ((obuf_book (obuf_dup (obuf_create 2) [1]).1 2).1).1 [5]).1
        (obuf_book (obuf_dup (obuf_create 2) [1]).1 2).2).pos =
      (obuf_dup (obuf_create 2) [1]).1.pos := by decide

/-- C5: `ibuf_reserve(n)` never reallocates when
`ibuf_size + n <= capacity` — the result does not depend on the
allocator, and capacity and the buffer's allocation identity are
unchanged, with no error raised.  Whenever the call takes the
defragmenting (move-in-place) path it leaves `pos == buf` (offset 0),
keeps `ibuf_size` unchanged, and the unconsumed bytes are byte-identical
to the bytes `[pos, end)` before the call, only shifted to the start of
the buffer. -/
theorem ibuf_reserve_defrag_spec (ibuf : Ibuf) (n : Nat) (hv : IbufValid ibuf) :
    (ibuf_size ibuf + n ≤ ibuf_capacity ibuf →
      (∀ a1 a2 ra, ibuf_reserve a1 ra ibuf n = ibuf_reserve a2 ra ibuf n) ∧
      ∀ a ra,
        (ibuf_reserve a ra ibuf n).1.capacity = ibuf.capacity ∧
        (ibuf_reserve a ra ibuf n).1.gen = ibuf.gen ∧
        (ibuf_reserve a ra ibuf n).2 = none) ∧
    (¬ n ≤ ibuf_unused ibuf → ibuf_size ibuf + n ≤ ibuf_capacity ibuf →
      ∀ a ra,
        ibuf_pos (ibuf_reserve a ra ibuf n).1 = 0 ∧
        ibuf_size (ibuf_reserve a ra ibuf n).1 = ibuf_size ibuf ∧
        ((ibuf_reserve a ra ibuf n).1.buf).take (ibuf_size ibuf) =
          (ibuf.buf.drop ibuf.pos).take (ibuf_size ibuf)) := by
  have hnoop : ∀ (a : Nat → Option Nat) ra, n ≤ ibuf_unused ibuf →
      ibuf_reserve a ra ibuf n = (ibuf, none) := by
    intro a ra hno
    unfold ibuf_reserve
    rw [if_pos hno]
  have hdefrag : ∀ (a : Nat → Option Nat) ra, ¬ n ≤ ibuf_unused ibuf →
      n + ibuf_size ibuf ≤ ibuf.capacity →
      ibuf_reserve a ra ibuf n =
        ({ ibuf with
            buf := (ibuf.buf.drop ibuf.pos).take (ibuf_size ibuf) ++
                   ibuf.buf.drop (ibuf_size ibuf),
            pos := 0,
            end_off := ibuf_size ibuf }, none) := by
    intro a ra hno hdef
    simp only [ibuf_reserve]
    rw [if_neg hno, if_pos hdef]
  constructor
  · intro hfit
    have hfit2 : n + ibuf_size ibuf ≤ ibuf.capacity := by
      unfold ibuf_capacity at hfit
      omega
    by_cases hno : n ≤ ibuf_unused ibuf
    · refine ⟨fun a1 a2 ra => (hnoop a1 ra hno).trans (hnoop a2 ra hno).symm, ?_⟩
      intro a ra
      rw [hnoop a ra hno]
      exact ⟨Eq.refl _, Eq.refl _, Eq.refl _⟩
    · refine ⟨fun a1 a2 ra => (hdefrag a1 ra hno hfit2).trans
        (hdefrag a2 ra hno hfit2).symm, ?_⟩
      intro a ra
      rw [hdefrag a ra hno hfit2]
      exact ⟨Eq.refl _, Eq.refl _, Eq.refl _⟩
  · intro hno hfit a ra
    have hfit2 : n + ibuf_size ibuf ≤ ibuf.capacity := by
      unfold ibuf_capacity at hfit
      omega
    rw [hdefrag a ra hno hfit2]
    refine ⟨Eq.refl _, ?_, ?_⟩
    · show ibuf_size ibuf - 0 = ibuf_size ibuf
      omega
    · show ((ibuf.buf.drop ibuf.pos).take (ibuf_size ibuf) ++
        ibuf.buf.drop (ibuf_size ibuf)).take (ibuf_size ibuf) =
        (ibuf.buf.drop ibuf.pos).take (ibuf_size ibuf)
      have hAlen : ((ibuf.buf.drop ibuf.pos).take (ibuf_size ibuf)).length =
          ibuf_size ibuf := by
        rw [List.length_take, List.length_drop, hv.buf_len]
        have h1 := hv.pos_le
        have h2 := hv.end_le
        unfold ibuf_size
        omega
      rw [List.take_append_eq_append_take, hAlen, Nat.sub_self, List.take_zero,
        List.append_nil]
      exact List.take_of_length_le (le_of_eq hAlen)

def exIbuf : Ibuf :=
  { capacity := 4, buf := [1, 2, 3, 4], pos := 2, end_off := 4, gen := 0 }

theorem ibuf_reserve_defrag_spec_witness :
    ¬ (2 : Nat) ≤ ibuf_unused exIbuf ∧
    ibuf_size exIbuf + 2 ≤ ibuf_capacity exIbuf ∧
    ibuf_pos (ibuf_reserve (fun _ => none) 16320 exIbuf 2).1 = 0 ∧
    ibuf_size (ibuf_reserve (fun _ => none) 16320 exIbuf 2).1 = ibuf_size exIbuf ∧
    ((ibuf_reserve (fun _ => none) 16320 exIbuf 2).1.buf).take (ibuf_size exIbuf) =
      (exIbuf.buf.drop exIbuf.pos).take (ibuf_size exIbuf) :=
  ⟨by decide, by decide,
   ((ibuf_reserve_defrag_spec exIbuf 2 ⟨by decide, by decide, by decide⟩).2
      (by decide) (by decide) (fun _ => none) 16320).1,
   ((ibuf_reserve_defrag_spec exIbuf 2 ⟨by decide, by decide, by decide⟩).2
      (by decide) (by decide) (fun _ => none) 16320).2.1,
   ((ibuf_reserve_defrag_spec exIbuf 2 ⟨by decide, by decide, by decide⟩).2
      (by decide) (by decide) (fun _ => none) 16320).2.2⟩

/-- C10: if the slab allocator fails, `ibuf_reserve` raises OutOfMemory
before mutating any field of the buffer — the returned state is exactly
the input state, every field and byte included. -/
theorem ibuf_reserve_failure_atomic (alloc : Nat → Option Nat) (readahead : Nat)
    (ibuf : Ibuf) (n : Nat) (e : OBErr)
    (h : (ibuf_reserve alloc readahead ibuf n).2 = some e) :
    (ibuf_reserve alloc readahead ibuf n).1 = ibuf ∧ e = OBErr.oom := by
  simp only [ibuf_reserve] at h ⊢
  by_cases h1 : n ≤ ibuf_unused ibuf
  · rw [if_pos h1] at h
    exact absurd h (by simp)
  · rw [if_neg h1] at h ⊢
    by_cases h2 : n + ibuf_size ibuf ≤ ibuf.capacity
    · rw [if_pos h2] at h
      exact absurd h (by simp)
    · rw [if_neg h2] at h ⊢
      rcases ha : alloc (growCapacity (Nat.max (ibuf.capacity * 2) readahead)
          (ibuf_size ibuf + n)) with _ | cap
      · rw [ha] at h
        have h' : (some OBErr.oom : Option OBErr) = some e := h
        have he : OBErr.oom = e := Option.some.inj h'
        exact ⟨Eq.refl _, he.symm⟩
      · rw [ha] at h
        exact absurd (show (none : Option OBErr) = some e from h) (by simp)

theorem ibuf_reserve_failure_atomic_witness :
    (ibuf_reserve (fun _ => none) 16320 ibuf_create 1).2 = some OBErr.oom ∧
    (ibuf_reserve (fun _ => none) 16320 ibuf_create 1).1 = ibuf_create :=
  ⟨by decide,
   (ibuf_reserve_failure_atomic (fun _ => none) 16320 ibuf_create 1 OBErr.oom
      (by decide)).1⟩

/-- C8: `iobuf_is_idle` returns true exactly when the input buffer holds
no unconsumed bytes, the output buffer is empty and the pin count is
zero; after `iobuf_pin` the unit is not idle regardless of buffer
emptiness, and `iobuf_unpin` on an otherwise-idle unit with pin count 1
makes it idle. -/
theorem iobuf_idle_pin_spec (u : Iobuf) :
    (iobuf_is_idle u = true ↔
      ibuf_size u.in_ = 0 ∧ obuf_size u.out = 0 ∧ u.pins = 0) ∧
    (0 ≤ u.pins → iobuf_is_idle (iobuf_pin u) = false) ∧
    (u.pins = 1 → ibuf_size u.in_ = 0 → obuf_size u.out = 0 →
      iobuf_is_idle (iobuf_unpin u) = true) := by
  refine ⟨?_, ?_, ?_⟩
  · unfold iobuf_is_idle
    simp only [Bool.and_eq_true, beq_iff_eq]
    constructor
    · intro h
      exact ⟨h.1.1, h.1.2, h.2⟩
    · intro h
      exact ⟨⟨h.1, h.2.1⟩, h.2.2⟩
  · intro hp
    unfold iobuf_is_idle iobuf_pin
    have hne : (u.pins + 1 == 0) = false := by
      rw [beq_eq_false_iff_ne]
      omega
    show (ibuf_size u.in_ == 0 && obuf_size u.out == 0 && (u.pins + 1 == 0)) = false
    rw [hne, Bool.and_false]
  · intro h1 h2 h3
    unfold iobuf_is_idle iobuf_unpin
    show (ibuf_size u.in_ == 0 && obuf_size u.out == 0 && (u.pins - 1 == 0)) = true
    rw [h2, h3, h1]
    rfl

theorem iobuf_idle_pin_spec_witness :
    iobuf_is_idle (iobuf_unpin
      { in_ := ibuf_create, out := obuf_create 1, pins := 1 }) = true ∧
    iobuf_is_idle (iobuf_pin
      { in_ := ibuf_create, out := obuf_create 1, pins := 1 }) = false :=
  ⟨(iobuf_idle_pin_spec { in_ := ibuf_create, out := obuf_create 1, pins := 1 }).2.2
      (Eq.refl _) (Eq.refl _) (Eq.refl _),
   (iobuf_idle_pin_spec { in_ := ibuf_create, out := obuf_create 1, pins := 1 }).2.1
      (by decide)⟩
